import Mathlib

/-!
VGA text-mode terminal driver (`kernel.c`)

A shallow embedding of the terminal driver of `src/kernel.c` and the proofs of
its specification.

Conventions of the embedding.

* C integers are mathematical integers; every narrowing the C code performs is
  written out as an explicit `%`.  The target is 32-bit i386 (the source refuses
  any other target), so `size_t` is 32 bits wide and plain `char` is signed.
* A `const char *` argument is a `List Int`: the `char` values of the object it
  points to, already promoted to `int`.  Reading past the end of that object is
  undefined behaviour and yields `none`.
* `terminal_buffer` always designates the fixed text buffer at `0xB8000`; it is
  modelled by the contents of its `VGA_WIDTH * VGA_HEIGHT` cells.  A store
  outside of those cells is undefined behaviour and yields `none`.
-/

namespace Kernel

/-! ## Integer conversions -/

/-- The modulus of `size_t` arithmetic on the i386 target. -/
abbrev SIZE_MOD : Nat := 4294967296

/-- Conversion of an integer to `unsigned char` / `uint8_t`. -/
def to_uchar (c : Int) : Nat := (c % 256).toNat

/-- Conversion of an integer to the signed `char` of the target. -/
def to_char (c : Int) : Int := (c + 128) % 256 - 128

/-! ## Cell encoding (`kernel.c` lines 58-64) -/

/-- The function `static inline uint8_t vga_entry_color(enum vga_color fg, enum vga_color bg)`:
`return fg | bg << 4;`, narrowed to `uint8_t` by the return. -/
def vga_entry_color (fg bg : Nat) : Nat := (fg ||| (bg <<< 4)) % 256

/-- The function `static inline uint16_t vga_entry(unsigned char uc, uint8_t color)`:
`return (uint16_t)uc | (uint16_t)color << 8;`.  The arguments are narrowed to
the parameter types on entry. -/
def vga_entry (uc : Int) (color : Nat) : Nat :=
  (to_uchar uc ||| ((color % 256) <<< 8)) % 65536

/-- The enumerator `VGA_COLOR_BLACK = 0`. -/
abbrev VGA_COLOR_BLACK : Nat := 0
/-- The enumerator `VGA_COLOR_LIGHT_GREY = 7`. -/
abbrev VGA_COLOR_LIGHT_GREY : Nat := 7

/-! ## `strlen` (lines 69-75) -/

/-- The loop `while (str[len]) len++;` of `strlen`.  The first argument bounds
the number of iterations; `strlen` passes a bound the loop cannot reach, because
it reads one element further at each iteration. -/
def strlen_loop (str : List Int) : Nat → Nat → Option Nat
  | 0, _ => none
  | fuel + 1, len =>
    match str[len]? with
    | none => none
    | some ch => if ch ≠ 0 then strlen_loop str fuel (len + 1) else some len

/-- The function `size_t strlen(const char* str)`. -/
def strlen (str : List Int) : Option Nat := strlen_loop str (str.length + 1) 0

/-! ## Terminal state (lines 77-83) -/

/-- The constant `static const size_t VGA_WIDTH = 80;` -/
abbrev VGA_WIDTH : Nat := 80
/-- The constant `static const size_t VGA_HEIGHT = 25;` -/
abbrev VGA_HEIGHT : Nat := 25

/-- The cells of the text buffer at `0xB8000`. -/
abbrev Buffer : Type := Fin (VGA_WIDTH * VGA_HEIGHT) → Nat

/-- The global variables `terminal_row`, `terminal_column`, `terminal_color`
and the contents of the buffer `terminal_buffer` points to. -/
structure Terminal where
  terminal_row : Nat
  terminal_column : Nat
  terminal_color : Nat
  terminal_buffer : Buffer

/-- The store `terminal_buffer[index] = entry;`, bounds-checked: `none` when
`index` is outside of the buffer. -/
def buffer_store (buf : Buffer) (index : Nat) (entry : Nat) : Option Buffer :=
  if h : index < VGA_WIDTH * VGA_HEIGHT then
    some (fun j => if j = ⟨index, h⟩ then entry else buf j)
  else none

/-- Bounds-checked read of the cell `terminal_buffer[index]`. -/
def buffer_load (buf : Buffer) (index : Nat) : Option Nat :=
  if h : index < VGA_WIDTH * VGA_HEIGHT then some (buf ⟨index, h⟩) else none

/-- The loop `for (size_t i = lo; i < hi; i++) body`, started at `i` with
`n = hi - i` iterations left. -/
def for_loop {σ : Type} (body : Nat → σ → Option σ) : Nat → Nat → σ → Option σ
  | 0, _, s => some s
  | n + 1, i, s => (body i s).bind (for_loop body n (i + 1))

/-- The local `const size_t index = y * VGA_WIDTH + x;` of `terminal_putentryat`
and of `terminal_initialize`. -/
def buffer_index (x y : Nat) : Nat := (y * VGA_WIDTH + x) % SIZE_MOD

/-! ## Terminal operations (lines 90-131) -/

/-- The function `void terminal_putentryat(char c, uint8_t color, size_t x, size_t y)`. -/
def terminal_putentryat (s : Terminal) (c : Int) (color : Nat) (x y : Nat) :
    Option Terminal :=
  let index := (y * VGA_WIDTH + x) % SIZE_MOD
  (buffer_store s.terminal_buffer index (vga_entry (to_char c) color)).map
    (fun buf => { s with terminal_buffer := buf })

/-- The function `void terminal_initialize(void)`. -/
def terminal_initialize (s : Terminal) : Option Terminal :=
  let s1 := { s with terminal_row := 0 }
  let s2 := { s1 with terminal_column := 0 }
  let s3 := { s2 with
    terminal_color := vga_entry_color VGA_COLOR_LIGHT_GREY VGA_COLOR_BLACK }
  for_loop (fun y t =>
    for_loop (fun x u =>
      let index := (y * VGA_WIDTH + x) % SIZE_MOD
      (buffer_store u.terminal_buffer index (vga_entry 32 u.terminal_color)).map
        (fun buf => { u with terminal_buffer := buf }))
      VGA_WIDTH 0 t)
    VGA_HEIGHT 0 s3

/-- The function `void terminal_setcolor(uint8_t color)`. -/
def terminal_setcolor (s : Terminal) (color : Nat) : Terminal :=
  { s with terminal_color := color % 256 }

/-- The function `void terminal_putchar(c)`; the parameter is an implicit `int`. -/
def terminal_putchar (s : Terminal) (c : Int) : Option Terminal :=
  (terminal_putentryat s c s.terminal_color s.terminal_column s.terminal_row).map
    (fun s1 =>
      let s2 := { s1 with terminal_column := (s1.terminal_column + 1) % SIZE_MOD }
      if s2.terminal_column = VGA_WIDTH ∨ c = 10 then
        let s3 := { s2 with terminal_column := 0 }
        let s4 := { s3 with terminal_row := (s3.terminal_row + 1) % SIZE_MOD }
        if s4.terminal_row = VGA_HEIGHT then { s4 with terminal_row := 0 } else s4
      else s2)

/-- The function `void terminal_write(const char* data, size_t size)`. -/
def terminal_write (s : Terminal) (data : List Int) (size : Nat) : Option Terminal :=
  for_loop (fun i t => (data[i]?).bind (fun ch => terminal_putchar t ch)) size 0 s

/-- The function `void terminal_writestring(const char* data)`. -/
def terminal_writestring (s : Terminal) (data : List Int) : Option Terminal :=
  (strlen data).bind (fun n => terminal_write s data n)

/-- The string literal `"Hello, kernel World!\n"` of `kernel_main`, with its
terminating zero. -/
def hello : List Int :=
  [72, 101, 108, 108, 111, 44, 32, 107, 101, 114, 110, 101, 108, 32,
   87, 111, 114, 108, 100, 33, 10, 0]

/-- The function `void kernel_main(void)`, run from the terminal state `s`. -/
def kernel_main (s : Terminal) : Option Terminal :=
  ( terminal_initialize s).bind (fun t => terminal_writestring t hello)

/-! ## Call sequences -/

/-- A call of one of the operations a client may issue after initialisation. -/
inductive Call where
  | putchar (c : Int)
  | write (data : List Int) (size : Nat)
  | writestring (data : List Int)
  | setcolor (color : Nat)

/-- The effect of one call. -/
def Call.exec (s : Terminal) : Call → Option Terminal
  | .putchar c => terminal_putchar s c
  | .write data size => terminal_write s data size
  | .writestring data => terminal_writestring s data
  | .setcolor color => some (terminal_setcolor s color)

/-- The effect of a sequence of calls, in order. -/
def run_calls (s : Terminal) : List Call → Option Terminal
  | [] => some s
  | call :: rest => (call.exec s).bind (fun t => run_calls t rest)

/-- The states reachable from `terminal_initialize` by a finite sequence of
calls. -/
def Reachable (s : Terminal) : Prop :=
  ∃ (s0 : Terminal) (calls : List Call),
    ( terminal_initialize s0).bind (fun t => run_calls t calls) = some s

/-- The cursor is inside the grid. -/
def cursor_in_bounds (s : Terminal) : Prop :=
  s.terminal_column < VGA_WIDTH ∧ s.terminal_row < VGA_HEIGHT

instance (s : Terminal) : Decidable (cursor_in_bounds s) := by
  unfold cursor_in_bounds; infer_instance

/-- The state every initialisation ends in. -/
def fresh : Terminal :=
  { terminal_row := 0, terminal_column := 0, terminal_color := 7,
    terminal_buffer := fun _ => 1824 }

/-- The state after `terminal_setcolor(0x1F)` and `terminal_putchar('H')` on a
fresh terminal. -/
def after_H : Terminal :=
  { terminal_row := 0, terminal_column := 1, terminal_color := 31,
    terminal_buffer := fun j => if j.val = 0 then 8008 else 1824 }

/-! ## Arithmetic of the encoding -/

theorem to_uchar_lt (c : Int) : to_uchar c < 256 := by
  unfold to_uchar; omega

theorem to_uchar_to_char (c : Int) : to_uchar (to_char c) = to_uchar c := by
  unfold to_uchar to_char; omega

theorem to_uchar_ofNat (c : Nat) (h : c < 256) : to_uchar (c : Int) = c := by
  unfold to_uchar; omega

theorem or_shift8 (a b : Nat) (h : a < 256) : a ||| (b <<< 8) = a + 256 * b := by
  have h2 : a < 2 ^ 8 := by omega
  have := Nat.mul_add_lt_is_or h2 b
  rw [Nat.shiftLeft_eq, Nat.lor_comm, Nat.mul_comm b, ← this]
  omega

theorem or_shift4 (a b : Nat) (h : a < 16) : a ||| (b <<< 4) = a + 16 * b := by
  have h2 : a < 2 ^ 4 := by omega
  have := Nat.mul_add_lt_is_or h2 b
  rw [Nat.shiftLeft_eq, Nat.lor_comm, Nat.mul_comm b, ← this]
  omega

theorem vga_entry_eq (uc : Int) (color : Nat) :
    vga_entry uc color = to_uchar uc + 256 * (color % 256) := by
  have h := to_uchar_lt uc
  unfold vga_entry
  rw [or_shift8 _ _ h]
  omega

theorem vga_entry_to_char (c : Int) (color : Nat) :
    vga_entry (to_char c) color = vga_entry c color := by
  rw [vga_entry_eq, vga_entry_eq, to_uchar_to_char]

theorem vga_entry_color_eq (fg bg : Nat) (h : fg < 16) :
    vga_entry_color fg bg = (fg + 16 * bg) % 256 := by
  unfold vga_entry_color
  rw [or_shift4 _ _ h]

/-! ## One step of the terminal -/

theorem buffer_store_eq (buf : Buffer) (index entry : Nat)
    (h : index < VGA_WIDTH * VGA_HEIGHT) :
    buffer_store buf index entry =
      some (fun j => if j.val = index then entry else buf j) := by
  unfold buffer_store
  rw [dif_pos h]
  congr 1
  funext j
  by_cases hj : j.val = index
  · have : j = ⟨index, h⟩ := Fin.ext hj
    simp [hj, this]
  · have : j ≠ ⟨index, h⟩ := fun e => hj (by rw [e])
    simp [hj, this]

theorem terminal_putentryat_eq (s : Terminal) (c : Int) (color x y : Nat)
    (hx : x < VGA_WIDTH) (hy : y < VGA_HEIGHT) :
    terminal_putentryat s c color x y =
      some { s with terminal_buffer := fun j =>
        if j.val = y * VGA_WIDTH + x then vga_entry c color else s.terminal_buffer j } := by
  have hi : (y * VGA_WIDTH + x) % SIZE_MOD = y * VGA_WIDTH + x := by
    simp only [VGA_WIDTH, VGA_HEIGHT, SIZE_MOD] at *; omega
  have hb : y * VGA_WIDTH + x < VGA_WIDTH * VGA_HEIGHT := by
    simp only [VGA_WIDTH, VGA_HEIGHT] at *; omega
  unfold terminal_putentryat
  simp only [hi, buffer_store_eq _ _ _ hb, vga_entry_to_char, Option.map_some']

theorem terminal_putchar_eq (s : Terminal) (c : Int)
    (hc : s.terminal_column < VGA_WIDTH) (hr : s.terminal_row < VGA_HEIGHT) :
    terminal_putchar s c = some
      { terminal_row :=
          if s.terminal_column + 1 = VGA_WIDTH ∨ c = 10 then
            (if s.terminal_row + 1 = VGA_HEIGHT then 0 else s.terminal_row + 1)
          else s.terminal_row
        terminal_column :=
          if s.terminal_column + 1 = VGA_WIDTH ∨ c = 10 then 0
          else s.terminal_column + 1
        terminal_color := s.terminal_color
        terminal_buffer := fun j =>
          if j.val = s.terminal_row * VGA_WIDTH + s.terminal_column then
            vga_entry c s.terminal_color
          else s.terminal_buffer j } := by
  have h1 : (s.terminal_column + 1) % SIZE_MOD = s.terminal_column + 1 := by
    simp only [VGA_WIDTH, SIZE_MOD] at *; omega
  have h2 : (s.terminal_row + 1) % SIZE_MOD = s.terminal_row + 1 := by
    simp only [VGA_HEIGHT, SIZE_MOD] at *; omega
  unfold terminal_putchar
  rw [terminal_putentryat_eq s c _ _ _ hc hr]
  simp only [Option.map_some', h1, h2]
  by_cases hw : s.terminal_column + 1 = VGA_WIDTH ∨ c = 10
  · by_cases hh : s.terminal_row + 1 = VGA_HEIGHT
    · simp only [if_pos hw, if_pos hh]
    · simp only [if_pos hw, if_neg hh]
  · simp only [if_neg hw]

/-! ## Loops -/

theorem for_loop_succ {σ : Type} (body : Nat → σ → Option σ) (n i : Nat) (s : σ) :
    for_loop body (n + 1) i s = (body i s).bind (for_loop body n (i + 1)) := rfl

theorem for_loop_invariant {σ : Type} (P : σ → Prop) (body : Nat → σ → Option σ)
    (hbody : ∀ i s t, P s → body i s = some t → P t) :
    ∀ (n i : Nat) (s t : σ), P s → for_loop body n i s = some t → P t := by
  intro n
  induction n with
  | zero =>
    intro i s t hs h
    simp only [for_loop, Option.some.injEq] at h
    exact h ▸ hs
  | succ n ih =>
    intro i s t hs h
    simp only [for_loop] at h
    cases hb : body i s with
    | none => rw [hb] at h; simp at h
    | some u =>
      rw [hb] at h
      exact ih (i + 1) u t (hbody i s u hs hb) h

theorem write_loop_eq_foldlM (data : List Int) :
    ∀ (n i : Nat) (s : Terminal), i + n ≤ data.length →
      for_loop (fun i t => (data[i]?).bind (fun ch => terminal_putchar t ch)) n i s =
        List.foldlM terminal_putchar s ((data.drop i).take n) := by
  intro n
  induction n with
  | zero => intro i s _; simp [for_loop]
  | succ n ih =>
    intro i s h
    have hi : i < data.length := by omega
    have hd : data.drop i = data[i] :: data.drop (i + 1) := List.drop_eq_getElem_cons hi
    simp only [for_loop, hd, List.take_succ_cons, List.foldlM_cons,
      List.getElem?_eq_getElem hi, Option.some_bind]
    cases hp : terminal_putchar s data[i] with
    | none => simp
    | some t =>
      have := ih (i + 1) t (by omega)
      simp [this]

theorem terminal_write_eq_foldlM (s : Terminal) (data : List Int) (size : Nat)
    (h : size ≤ data.length) :
    terminal_write s data size = List.foldlM terminal_putchar s (data.take size) := by
  unfold terminal_write
  rw [write_loop_eq_foldlM data size 0 s (by omega), List.drop_zero]

theorem terminal_putchar_in_bounds (s t : Terminal) (c : Int)
    (hs : cursor_in_bounds s) (h : terminal_putchar s c = some t) :
    cursor_in_bounds t := by
  obtain ⟨hc, hr⟩ := hs
  rw [terminal_putchar_eq s c hc hr] at h
  simp only [Option.some.injEq] at h
  subst h
  unfold cursor_in_bounds
  simp only [VGA_WIDTH, VGA_HEIGHT] at *
  constructor
  · split <;> omega
  · split
    · split <;> omega
    · omega

theorem terminal_write_in_bounds (s t : Terminal) (data : List Int) (size : Nat)
    (hs : cursor_in_bounds s) (h : terminal_write s data size = some t) :
    cursor_in_bounds t := by
  unfold terminal_write at h
  refine for_loop_invariant cursor_in_bounds _ ?_ size 0 s t hs h
  intro i u v hu hb
  cases hd : data[i]? with
  | none => rw [hd] at hb; simp at hb
  | some ch =>
    rw [hd] at hb
    exact terminal_putchar_in_bounds u v ch hu hb

theorem terminal_writestring_in_bounds (s t : Terminal) (data : List Int)
    (hs : cursor_in_bounds s) (h : terminal_writestring s data = some t) :
    cursor_in_bounds t := by
  unfold terminal_writestring at h
  cases hn : strlen data with
  | none => rw [hn] at h; simp at h
  | some n =>
    rw [hn] at h
    exact terminal_write_in_bounds s t data n hs h

/-! ## Initialisation -/

theorem init_row_eq (y : Nat) (hy : y < VGA_HEIGHT) :
    ∀ (n x : Nat) (u : Terminal), x + n ≤ VGA_WIDTH →
      for_loop (fun x u =>
          (buffer_store u.terminal_buffer ((y * VGA_WIDTH + x) % SIZE_MOD)
            (vga_entry 32 u.terminal_color)).map
            (fun buf => { u with terminal_buffer := buf })) n x u =
        some { u with terminal_buffer := (fun j =>
          if y * VGA_WIDTH + x ≤ j.val ∧ j.val < y * VGA_WIDTH + x + n then
            vga_entry 32 u.terminal_color
          else u.terminal_buffer j) } := by
  intro n
  induction n with
  | zero =>
    intro x u _
    have hf : (fun j : Fin (VGA_WIDTH * VGA_HEIGHT) =>
        if y * VGA_WIDTH + x ≤ j.val ∧ j.val < y * VGA_WIDTH + x + 0 then
          vga_entry 32 u.terminal_color
        else u.terminal_buffer j) = u.terminal_buffer := by
      funext j
      rw [if_neg (by omega)]
    rw [hf]
    rfl
  | succ n ih =>
    intro x u h
    have hi : (y * VGA_WIDTH + x) % SIZE_MOD = y * VGA_WIDTH + x := by
      simp only [VGA_WIDTH, VGA_HEIGHT, SIZE_MOD] at *; omega
    have hb : y * VGA_WIDTH + x < VGA_WIDTH * VGA_HEIGHT := by
      simp only [VGA_WIDTH, VGA_HEIGHT] at *; omega
    simp only [for_loop, hi, buffer_store_eq _ _ _ hb, Option.map_some', Option.some_bind]
    rw [ih (x + 1) _ (by omega)]
    simp only [Option.some.injEq]
    congr 1
    funext j
    by_cases h1 : y * VGA_WIDTH + (x + 1) ≤ j.val ∧ j.val < y * VGA_WIDTH + (x + 1) + n
    · rw [if_pos h1, if_pos (by omega)]
    · rw [if_neg h1]
      by_cases h2 : j.val = y * VGA_WIDTH + x
      · rw [if_pos h2, if_pos (by omega)]
      · rw [if_neg h2, if_neg (by omega)]

theorem init_rows_eq :
    ∀ (n y : Nat) (t : Terminal), y + n ≤ VGA_HEIGHT →
      for_loop (fun y t =>
          for_loop (fun x u =>
            (buffer_store u.terminal_buffer ((y * VGA_WIDTH + x) % SIZE_MOD)
              (vga_entry 32 u.terminal_color)).map
              (fun buf => { u with terminal_buffer := buf })) VGA_WIDTH 0 t) n y t =
        some { t with terminal_buffer := (fun j =>
          if y * VGA_WIDTH ≤ j.val ∧ j.val < (y + n) * VGA_WIDTH then
            vga_entry 32 t.terminal_color
          else t.terminal_buffer j) } := by
  intro n
  induction n with
  | zero =>
    intro y t _
    have hf : (fun j : Fin (VGA_WIDTH * VGA_HEIGHT) =>
        if y * VGA_WIDTH ≤ j.val ∧ j.val < (y + 0) * VGA_WIDTH then
          vga_entry 32 t.terminal_color
        else t.terminal_buffer j) = t.terminal_buffer := by
      funext j
      rw [if_neg (by simp only [VGA_WIDTH]; omega)]
    rw [hf]
    rfl
  | succ n ih =>
    intro y t h
    have hy : y < VGA_HEIGHT := by omega
    rw [for_loop_succ _ n y t]
    rw [init_row_eq y hy VGA_WIDTH 0 t (by omega)]
    simp only [Option.some_bind]
    rw [ih (y + 1) _ (by omega)]
    simp only [Option.some.injEq]
    congr 1
    funext j
    simp only [VGA_WIDTH]
    by_cases h1 : (y + 1) * 80 ≤ j.val ∧ j.val < (y + 1 + n) * 80
    · rw [if_pos h1, if_pos (by omega)]
    · rw [if_neg h1]
      by_cases h2 : y * 80 + 0 ≤ j.val ∧ j.val < y * 80 + 0 + 80
      · rw [if_pos h2, if_pos (by omega)]
      · rw [if_neg h2, if_neg (by omega)]

theorem terminal_initialize_eq (s : Terminal) : terminal_initialize s = some fresh := by
  unfold terminal_initialize
  simp only []
  rw [init_rows_eq VGA_HEIGHT 0 _ (by omega)]
  simp only [fresh, Option.some.injEq]
  have hc : vga_entry_color VGA_COLOR_LIGHT_GREY VGA_COLOR_BLACK = 7 := by decide
  have he : vga_entry 32 7 = 1824 := by decide
  rw [hc, he]
  congr 1
  funext j
  have := j.isLt
  rw [if_pos (by simp only [VGA_WIDTH, VGA_HEIGHT] at *; omega)]

/-! ## `strlen` -/

theorem strlen_loop_eq (str : List Int) (n : Nat) (hn : str[n]? = some 0)
    (hmin : ∀ k, k < n → str[k]? ≠ some 0) :
    ∀ (fuel len : Nat), len ≤ n → n - len < fuel → strlen_loop str fuel len = some n := by
  have hlen : n < str.length := by
    rcases Nat.lt_or_ge n str.length with h | h
    · exact h
    · rw [List.getElem?_eq_none h] at hn; simp at hn
  intro fuel
  induction fuel with
  | zero => intro len _ h; omega
  | succ fuel ih =>
    intro len hle hfuel
    rcases Nat.eq_or_lt_of_le hle with heq | hlt
    · subst heq
      simp [strlen_loop, hn]
    · have hl : len < str.length := by omega
      have hne : str[len] ≠ 0 := by
        intro h0
        apply hmin len hlt
        rw [List.getElem?_eq_getElem hl, h0]
      simp only [strlen_loop, List.getElem?_eq_getElem hl, ne_eq, hne, not_false_eq_true,
        if_true]
      exact ih (len + 1) (by omega) (by omega)

theorem strlen_eq (str : List Int) (n : Nat) (hn : str[n]? = some 0)
    (hmin : ∀ k, k < n → str[k]? ≠ some 0) : strlen str = some n := by
  have hlen : n < str.length := by
    rcases Nat.lt_or_ge n str.length with h | h
    · exact h
    · rw [List.getElem?_eq_none h] at hn; simp at hn
  exact strlen_loop_eq str n hn hmin (str.length + 1) 0 (by omega) (by omega)

theorem first_zero_exists (str : List Int) (h : (0 : Int) ∈ str) :
    ∃ n, n < str.length ∧ str[n]? = some 0 ∧ ∀ k, k < n → str[k]? ≠ some 0 := by
  classical
  have hex : ∃ n, str[n]? = some (0 : Int) := List.mem_iff_getElem?.mp h
  refine ⟨Nat.find hex, ?_, Nat.find_spec hex, fun k hk => Nat.find_min hex hk⟩
  rcases Nat.lt_or_ge (Nat.find hex) str.length with h1 | h1
  · exact h1
  · have := Nat.find_spec hex
    rw [List.getElem?_eq_none h1] at this
    simp at this

/-! ## Writing inside one row -/

theorem putchars_line (data : List Int) :
    ∀ (s : Terminal), s.terminal_row < VGA_HEIGHT →
      s.terminal_column + data.length < VGA_WIDTH → (∀ c ∈ data, c ≠ 10) →
      List.foldlM terminal_putchar s data = some
        { s with
          terminal_column := s.terminal_column + data.length
          terminal_buffer := (fun j =>
            if s.terminal_row * VGA_WIDTH + s.terminal_column ≤ j.val then
              match data[j.val - (s.terminal_row * VGA_WIDTH + s.terminal_column)]? with
              | some ch => vga_entry ch s.terminal_color
              | none => s.terminal_buffer j
            else s.terminal_buffer j) } := by
  induction data with
  | nil =>
    intro s _ _ _
    simp only [List.foldlM_nil, List.length_nil, Nat.add_zero, List.getElem?_nil, ite_self]
    rfl
  | cons c cs ih =>
    intro s hr hc hnl
    have hc1 : s.terminal_column < VGA_WIDTH := by
      simp only [List.length_cons] at hc; omega
    have hne : c ≠ 10 := hnl c (List.mem_cons_self c cs)
    have hw : ¬ (s.terminal_column + 1 = VGA_WIDTH ∨ c = 10) := by
      simp only [List.length_cons, VGA_WIDTH] at *
      intro h
      rcases h with h | h
      · omega
      · exact hne h
    rw [List.foldlM_cons, terminal_putchar_eq s c hc1 hr]
    simp only [if_neg hw]
    show List.foldlM terminal_putchar _ cs = _
    refine (ih _ ?_ ?_ (fun x hx => hnl x (List.mem_cons_of_mem c hx))).trans ?_
    · exact hr
    · simp only [List.length_cons] at hc
      show s.terminal_column + 1 + cs.length < VGA_WIDTH
      omega
    simp only [List.length_cons, Option.some.injEq, Terminal.mk.injEq, true_and]
    refine ⟨by omega, ?_⟩
    funext j
    by_cases h1 : s.terminal_row * VGA_WIDTH + (s.terminal_column + 1) ≤ j.val
    · have h2 : s.terminal_row * VGA_WIDTH + s.terminal_column ≤ j.val := by omega
      have h3 : j.val - (s.terminal_row * VGA_WIDTH + s.terminal_column) =
          (j.val - (s.terminal_row * VGA_WIDTH + (s.terminal_column + 1))) + 1 := by omega
      have h4 : ¬ j.val = s.terminal_row * VGA_WIDTH + s.terminal_column := by omega
      rw [if_pos h1, if_pos h2, h3, List.getElem?_cons_succ, if_neg h4]
    · rw [if_neg h1]
      by_cases h2 : j.val = s.terminal_row * VGA_WIDTH + s.terminal_column
      · rw [if_pos h2, if_pos (by omega), h2, Nat.sub_self, List.getElem?_cons_zero]
      · rw [if_neg h2, if_neg (by omega)]

theorem putchars_line_end (data : List Int) (c : Int) (s : Terminal)
    (hr : s.terminal_row < VGA_HEIGHT)
    (hc : s.terminal_column + data.length < VGA_WIDTH) (hnl : ∀ x ∈ data, x ≠ 10) :
    List.foldlM terminal_putchar s (data ++ [c]) = some
      { terminal_row :=
          if s.terminal_column + data.length + 1 = VGA_WIDTH ∨ c = 10 then
            (if s.terminal_row + 1 = VGA_HEIGHT then 0 else s.terminal_row + 1)
          else s.terminal_row
        terminal_column :=
          if s.terminal_column + data.length + 1 = VGA_WIDTH ∨ c = 10 then 0
          else s.terminal_column + data.length + 1
        terminal_color := s.terminal_color
        terminal_buffer := (fun j =>
          if s.terminal_row * VGA_WIDTH + s.terminal_column ≤ j.val then
            match (data ++ [c])[j.val - (s.terminal_row * VGA_WIDTH + s.terminal_column)]? with
            | some ch => vga_entry ch s.terminal_color
            | none => s.terminal_buffer j
          else s.terminal_buffer j) } := by
  rw [List.foldlM_append, putchars_line data s hr hc hnl]
  simp only [List.foldlM_cons, List.foldlM_nil, bind_pure]
  show terminal_putchar _ c = _
  refine (terminal_putchar_eq _ c ?_ ?_).trans ?_
  · exact hc
  · exact hr
  simp only [Option.some.injEq, Terminal.mk.injEq, true_and]
  funext j
  by_cases h1 : j.val = s.terminal_row * VGA_WIDTH + (s.terminal_column + data.length)
  · have h2 : s.terminal_row * VGA_WIDTH + s.terminal_column ≤ j.val := by omega
    have h3 : j.val - (s.terminal_row * VGA_WIDTH + s.terminal_column) = data.length := by
      omega
    rw [if_pos h1, if_pos h2, h3, List.getElem?_append_right (Nat.le_refl _)]
    simp
  · rw [if_neg h1]
    by_cases h2 : s.terminal_row * VGA_WIDTH + s.terminal_column ≤ j.val
    · rw [if_pos h2, if_pos h2]
      rcases Nat.lt_or_ge (j.val - (s.terminal_row * VGA_WIDTH + s.terminal_column))
        data.length with h3 | h3
      · rw [List.getElem?_append_left h3]
      · have h4 : data.length + 1 ≤
            j.val - (s.terminal_row * VGA_WIDTH + s.terminal_column) := by omega
        rw [List.getElem?_eq_none h3,
          List.getElem?_eq_none (by simp only [List.length_append, List.length_singleton]; omega)]
    · rw [if_neg h2, if_neg h2]

/-! ## Reachable states -/

theorem putchars_some (data : List Int) :
    ∀ (s : Terminal), cursor_in_bounds s →
      ∃ t, List.foldlM terminal_putchar s data = some t ∧ cursor_in_bounds t := by
  induction data with
  | nil => intro s hs; exact ⟨s, rfl, hs⟩
  | cons c cs ih =>
    intro s hs
    have h1 := terminal_putchar_eq s c hs.1 hs.2
    obtain ⟨t, ht, hb⟩ := ih _ (terminal_putchar_in_bounds s _ c hs h1)
    refine ⟨t, ?_, hb⟩
    rw [List.foldlM_cons, h1]
    exact ht

theorem terminal_write_some (s : Terminal) (data : List Int) (size : Nat)
    (hs : cursor_in_bounds s) (h : size ≤ data.length) :
    ∃ t, terminal_write s data size = some t ∧ cursor_in_bounds t := by
  rw [terminal_write_eq_foldlM s data size h]
  exact putchars_some _ s hs

theorem terminal_writestring_some (s : Terminal) (data : List Int)
    (hs : cursor_in_bounds s) (h : (0 : Int) ∈ data) :
    ∃ t, terminal_writestring s data = some t ∧ cursor_in_bounds t := by
  obtain ⟨n, hlt, hn, hmin⟩ := first_zero_exists data h
  unfold terminal_writestring
  rw [strlen_eq data n hn hmin]
  exact terminal_write_some s data n hs (by omega)

theorem fresh_in_bounds : cursor_in_bounds fresh := by
  unfold cursor_in_bounds fresh; simp

theorem exec_in_bounds (call : Call) (s t : Terminal) (hs : cursor_in_bounds s)
    (h : call.exec s = some t) : cursor_in_bounds t := by
  cases call with
  | putchar c => exact terminal_putchar_in_bounds s t c hs h
  | write data size => exact terminal_write_in_bounds s t data size hs h
  | writestring data => exact terminal_writestring_in_bounds s t data hs h
  | setcolor color =>
    simp only [Call.exec, Option.some.injEq] at h
    subst h
    exact hs

theorem run_calls_in_bounds (calls : List Call) :
    ∀ (s t : Terminal), cursor_in_bounds s → run_calls s calls = some t →
      cursor_in_bounds t := by
  induction calls with
  | nil =>
    intro s t hs h
    simp only [run_calls, Option.some.injEq] at h
    exact h ▸ hs
  | cons call rest ih =>
    intro s t hs h
    simp only [run_calls] at h
    cases he : call.exec s with
    | none => rw [he] at h; simp at h
    | some u =>
      rw [he] at h
      exact ih u t (exec_in_bounds call s u hs he) h

theorem reachable_in_bounds (s : Terminal) (h : Reachable s) : cursor_in_bounds s := by
  obtain ⟨s0, calls, hrun⟩ := h
  rw [terminal_initialize_eq] at hrun
  exact run_calls_in_bounds calls fresh s fresh_in_bounds hrun

theorem reachable_after_H : Reachable after_H := by
  refine ⟨fresh, [Call.setcolor 31, Call.putchar 72], ?_⟩
  rw [terminal_initialize_eq]
  simp only [Option.some_bind, run_calls, Call.exec]
  rw [terminal_putchar_eq _ _ (by decide) (by decide)]
  simp only [Option.some_bind, after_H, terminal_setcolor, fresh, Option.some.injEq,
    Terminal.mk.injEq]
  refine ⟨by decide, by decide, by decide, ?_⟩
  funext j
  have h : vga_entry 72 (31 % 256) = 8008 := by decide
  simp [h]

/-! ## The greeting of `kernel_main` -/

theorem hello_eq_literal :
    hello = ("Hello, kernel World!\n".toList.map fun ch => (ch.toNat : Int)) ++ [0] := by
  decide

theorem write_hello :
    ∃ t, terminal_write fresh hello 21 = some t ∧
      t.terminal_column = 0 ∧ t.terminal_row = 1 ∧ t.terminal_color = 7 ∧
      ∀ j, t.terminal_buffer j =
        match (hello.take 21)[j.val]? with
        | some ch => vga_entry ch 7
        | none => 1824 := by
  have hsplit : hello.take 21 = hello.take 20 ++ [10] := by decide
  have key := putchars_line_end (hello.take 20) 10 fresh (by decide) (by decide) (by decide)
  rw [← hsplit] at key
  rw [← terminal_write_eq_foldlM fresh hello 21 (by decide)] at key
  refine ⟨_, key, ?_, ?_, ?_, ?_⟩
  · simp
  · simp [fresh]
  · rfl
  · intro j
    simp [fresh]

/-! ## Writing a full row -/

theorem write_full_row (s : Terminal) (data : List Int)
    (hr : s.terminal_row < VGA_HEIGHT) (hc : s.terminal_column = 0)
    (hlen : data.length = VGA_WIDTH) (hnl : ∀ c ∈ data, c ≠ 10) :
    ∃ t, terminal_write s data VGA_WIDTH = some t ∧
      t.terminal_column = 0 ∧
      t.terminal_row = (if s.terminal_row + 1 = VGA_HEIGHT then 0 else s.terminal_row + 1) ∧
      t.terminal_color = s.terminal_color ∧
      ∀ x ch, x < VGA_WIDTH → data[x]? = some ch →
        buffer_load t.terminal_buffer (s.terminal_row * VGA_WIDTH + x) =
          some (vga_entry ch s.terminal_color) := by
  have h79 : 79 < data.length := by rw [hlen]; decide
  have hsplit : data.take 79 ++ [data[79]] = data := by
    have h1 : data.drop 79 = data[79] :: data.drop 80 := List.drop_eq_getElem_cons h79
    have h2 : data.drop 80 = [] := List.drop_eq_nil_of_le (by rw [hlen])
    have h3 := List.take_append_drop 79 data
    rw [h1, h2] at h3
    exact h3
  have hl : (data.take 79).length = 79 := by
    rw [List.length_take, hlen]; decide
  have key := putchars_line_end (data.take 79) data[79] s hr
    (by rw [hl, hc]; decide) (fun x hx => hnl x (List.mem_of_mem_take hx))
  rw [hsplit, hl, hc] at key
  have hw : terminal_write s data VGA_WIDTH = List.foldlM terminal_putchar s data := by
    rw [terminal_write_eq_foldlM s data VGA_WIDTH (by rw [hlen]),
      List.take_of_length_le (by rw [hlen])]
  rw [← hw] at key
  refine ⟨_, key, ?_, ?_, rfl, ?_⟩
  · simp
  · simp
  · intro x ch hx hch
    have hb : s.terminal_row * VGA_WIDTH + x < VGA_WIDTH * VGA_HEIGHT := by
      simp only [VGA_WIDTH, VGA_HEIGHT] at *; omega
    unfold buffer_load
    rw [dif_pos hb]
    simp [hch]

/-! ## What a step leaves unchanged -/

theorem terminal_putentryat_index (s : Terminal) (c : Int) (color x y : Nat) :
    terminal_putentryat s c color x y =
      (buffer_store s.terminal_buffer (buffer_index x y) (vga_entry (to_char c) color)).map
        (fun buf => { s with terminal_buffer := buf }) := rfl

theorem terminal_putchar_frame (s t : Terminal) (c : Int)
    (h : terminal_putchar s c = some t) :
    t.terminal_color = s.terminal_color ∧
    ∀ j, j.val ≠ buffer_index s.terminal_column s.terminal_row →
      t.terminal_buffer j = s.terminal_buffer j := by
  unfold terminal_putchar at h
  rw [terminal_putentryat_index] at h
  by_cases hb : buffer_index s.terminal_column s.terminal_row < VGA_WIDTH * VGA_HEIGHT
  · rw [buffer_store_eq _ _ _ hb] at h
    simp only [Option.map_some', Option.some.injEq] at h
    subst h
    constructor
    · split
      · split <;> rfl
      · rfl
    · intro j hj
      split
      · split <;> simp [hj]
      · simp [hj]
  · unfold buffer_store at h
    rw [dif_neg hb] at h
    simp at h

theorem terminal_putchar_cell (s t : Terminal) (c : Int)
    (h : terminal_putchar s c = some t) :
    ∀ j, t.terminal_buffer j = s.terminal_buffer j ∨
      t.terminal_buffer j = vga_entry c s.terminal_color := by
  unfold terminal_putchar at h
  rw [terminal_putentryat_index] at h
  by_cases hb : buffer_index s.terminal_column s.terminal_row < VGA_WIDTH * VGA_HEIGHT
  · rw [buffer_store_eq _ _ _ hb, vga_entry_to_char] at h
    simp only [Option.map_some', Option.some.injEq] at h
    subst h
    intro j
    by_cases hj : j.val = buffer_index s.terminal_column s.terminal_row
    · right
      split
      · split <;> simp [hj]
      · simp [hj]
    · left
      split
      · split <;> simp [hj]
      · simp [hj]
  · unfold buffer_store at h
    rw [dif_neg hb] at h
    simp at h

theorem terminal_write_color (s t : Terminal) (data : List Int) (size : Nat)
    (h : terminal_write s data size = some t) : t.terminal_color = s.terminal_color := by
  unfold terminal_write at h
  refine for_loop_invariant (fun u => u.terminal_color = s.terminal_color) _ ?_ size 0 s t
    rfl h
  intro i u v hu hb
  cases hd : data[i]? with
  | none => rw [hd] at hb; simp at hb
  | some ch =>
    rw [hd] at hb
    rw [(terminal_putchar_frame u v ch hb).1, hu]

theorem terminal_writestring_color (s t : Terminal) (data : List Int)
    (h : terminal_writestring s data = some t) : t.terminal_color = s.terminal_color := by
  unfold terminal_writestring at h
  cases hn : strlen data with
  | none => rw [hn] at h; simp at h
  | some n =>
    rw [hn] at h
    exact terminal_write_color s t data n h

/-! ## Writing plain text: the screen as a ring of cells -/

theorem putchars_ring (s : Terminal) (hs : cursor_in_bounds s) (data : List Int) :
    (∀ c ∈ data, c ≠ 10) →
    ∃ t, List.foldlM terminal_putchar s data = some t ∧
      t.terminal_color = s.terminal_color ∧
      cursor_in_bounds t ∧
      t.terminal_row * 80 + t.terminal_column =
        (s.terminal_row * 80 + s.terminal_column + data.length) % 2000 ∧
      ∀ j : Fin (VGA_WIDTH * VGA_HEIGHT),
        (∀ k ch, data[k]? = some ch →
          (s.terminal_row * 80 + s.terminal_column + k) % 2000 = j.val →
          (∀ k', k' < data.length →
            (s.terminal_row * 80 + s.terminal_column + k') % 2000 = j.val → k' ≤ k) →
          t.terminal_buffer j = vga_entry ch s.terminal_color) ∧
        ((∀ k, k < data.length →
            (s.terminal_row * 80 + s.terminal_column + k) % 2000 ≠ j.val) →
          t.terminal_buffer j = s.terminal_buffer j) := by
  induction data using List.reverseRecOn with
  | nil =>
    intro _
    have h1 := hs.1
    have h2 := hs.2
    refine ⟨s, rfl, rfl, hs, ?_, ?_⟩
    · simp only [VGA_WIDTH, VGA_HEIGHT, List.length_nil] at *
      omega
    · intro j
      refine ⟨?_, fun _ => rfl⟩
      intro k ch hk
      simp at hk
  | append_singleton xs c ih =>
    intro hnl
    obtain ⟨t, hfold, hcol, ht, hpos, hcells⟩ :=
      ih (fun x hx => hnl x (List.mem_append_left _ hx))
    have hc : c ≠ 10 := hnl c (List.mem_append_right _ (List.mem_singleton_self c))
    have hstep := terminal_putchar_eq t c ht.1 ht.2
    have h1 := ht.1
    have h2 := ht.2
    simp only [VGA_WIDTH, VGA_HEIGHT] at h1 h2
    have hfold2 : List.foldlM terminal_putchar s (xs ++ [c]) = terminal_putchar t c := by
      rw [List.foldlM_append, hfold]
      simp only [List.foldlM_cons, List.foldlM_nil, bind_pure]
      rfl
    rw [hstep] at hfold2
    refine ⟨_, hfold2, ?_, ?_, ?_, ?_⟩
    · exact hcol
    · exact terminal_putchar_in_bounds t _ c ht hstep
    · simp only [List.length_append, List.length_singleton, VGA_WIDTH, VGA_HEIGHT, hc,
        or_false]
      by_cases hw : t.terminal_column + 1 = 80
      · by_cases hh : t.terminal_row + 1 = 25
        · simp only [if_pos hw, if_pos hh]; omega
        · simp only [if_pos hw, if_neg hh]; omega
      · simp only [if_neg hw]; omega
    · intro j
      have hlen : (xs ++ [c]).length = xs.length + 1 := by simp
      constructor
      · intro k ch hk hhit hmax
        have hklt : k < xs.length + 1 := by
          rcases Nat.lt_or_ge k (xs ++ [c]).length with h | h
          · rw [hlen] at h; exact h
          · rw [List.getElem?_eq_none h] at hk; simp at hk
        by_cases hj : j.val = t.terminal_row * VGA_WIDTH + t.terminal_column
        · have hn : xs.length ≤ k := by
            apply hmax xs.length (by rw [hlen]; omega)
            rw [← hpos]; exact hj.symm
          have hkn : k = xs.length := by omega
          rw [hkn, List.getElem?_append_right (Nat.le_refl _)] at hk
          simp only [Nat.sub_self, List.getElem?_cons_zero, Option.some.injEq] at hk
          simp only [if_pos hj]
          rw [← hk, hcol]
        · have hkn : k ≠ xs.length := by
            intro h
            apply hj
            rw [← hhit, h, ← hpos]
          have hk2 : k < xs.length := by omega
          rw [List.getElem?_append_left hk2] at hk
          simp only [if_neg hj]
          exact (hcells j).1 k ch hk hhit
            (fun k' hk' hh => hmax k' (by rw [hlen]; omega) hh)
      · intro hno
        have hj : ¬ j.val = t.terminal_row * VGA_WIDTH + t.terminal_column := by
          intro h
          apply hno xs.length (by rw [hlen]; omega)
          rw [← hpos]; exact h.symm
        simp only [if_neg hj]
        exact (hcells j).2 (fun k hk => hno k (by rw [hlen]; omega))

/-! ## The attribute byte of the cells -/

theorem vga_entry_attr (c : Int) (k : Nat) : vga_entry c k / 256 = k % 256 := by
  have h := to_uchar_lt c
  rw [vga_entry_eq]
  omega

theorem vga_entry_char (c : Int) (k : Nat) : vga_entry c k % 256 = to_uchar c := by
  have h := to_uchar_lt c
  rw [vga_entry_eq]
  omega

theorem terminal_putchar_attr (P : Nat → Prop) (s t : Terminal) (c : Int)
    (hs : P (s.terminal_color % 256) ∧ ∀ j, P (s.terminal_buffer j / 256))
    (h : terminal_putchar s c = some t) :
    P (t.terminal_color % 256) ∧ ∀ j, P (t.terminal_buffer j / 256) := by
  constructor
  · rw [(terminal_putchar_frame s t c h).1]
    exact hs.1
  · intro j
    rcases terminal_putchar_cell s t c h j with hj | hj
    · rw [hj]; exact hs.2 j
    · rw [hj, vga_entry_attr]; exact hs.1

theorem terminal_write_attr (P : Nat → Prop) (s t : Terminal) (data : List Int)
    (size : Nat)
    (hs : P (s.terminal_color % 256) ∧ ∀ j, P (s.terminal_buffer j / 256))
    (h : terminal_write s data size = some t) :
    P (t.terminal_color % 256) ∧ ∀ j, P (t.terminal_buffer j / 256) := by
  unfold terminal_write at h
  refine for_loop_invariant
    (fun u => P (u.terminal_color % 256) ∧ ∀ j, P (u.terminal_buffer j / 256)) _ ?_
    size 0 s t hs h
  intro i u v hu hb
  cases hd : data[i]? with
  | none => rw [hd] at hb; simp at hb
  | some ch =>
    rw [hd] at hb
    exact terminal_putchar_attr P u v ch hu hb

theorem exec_attr (P : Nat → Prop) (call : Call) (s t : Terminal)
    (hs : P (s.terminal_color % 256) ∧ ∀ j, P (s.terminal_buffer j / 256))
    (hcall : ∀ k, call = Call.setcolor k → P (k % 256))
    (h : call.exec s = some t) :
    P (t.terminal_color % 256) ∧ ∀ j, P (t.terminal_buffer j / 256) := by
  cases call with
  | putchar c => exact terminal_putchar_attr P s t c hs h
  | write data size => exact terminal_write_attr P s t data size hs h
  | writestring data =>
    simp only [Call.exec, terminal_writestring] at h
    cases hn : strlen data with
    | none => rw [hn] at h; simp at h
    | some n =>
      rw [hn] at h
      exact terminal_write_attr P s t data n hs h
  | setcolor k =>
    simp only [Call.exec, Option.some.injEq] at h
    subst h
    refine ⟨?_, hs.2⟩
    show P (k % 256 % 256)
    rw [Nat.mod_mod]
    exact hcall k rfl

theorem run_calls_attr (P : Nat → Prop) (calls : List Call) :
    ∀ (s t : Terminal),
      (P (s.terminal_color % 256) ∧ ∀ j, P (s.terminal_buffer j / 256)) →
      (∀ k, Call.setcolor k ∈ calls → P (k % 256)) →
      run_calls s calls = some t →
      P (t.terminal_color % 256) ∧ ∀ j, P (t.terminal_buffer j / 256) := by
  induction calls with
  | nil =>
    intro s t hs _ h
    simp only [run_calls, Option.some.injEq] at h
    exact h ▸ hs
  | cons call rest ih =>
    intro s t hs hset h
    simp only [run_calls] at h
    cases he : call.exec s with
    | none => rw [he] at h; simp at h
    | some u =>
      rw [he] at h
      refine ih u t (exec_attr P call s u hs ?_ he)
        (fun k hk => hset k (List.mem_cons_of_mem _ hk)) h
      intro k hk
      exact hset k (by rw [hk]; exact List.mem_cons_self _ _)

theorem run_after_H :
    ( terminal_initialize fresh).bind
      (fun t => run_calls t [Call.setcolor 31, Call.putchar 72]) = some after_H := by
  rw [terminal_initialize_eq]
  simp only [Option.some_bind, run_calls, Call.exec]
  rw [terminal_putchar_eq _ _ (by decide) (by decide)]
  simp only [Option.some_bind, after_H, terminal_setcolor, fresh, Option.some.injEq,
    Terminal.mk.injEq]
  refine ⟨by decide, by decide, by decide, ?_⟩
  funext j
  have h : vga_entry 72 (31 % 256) = 8008 := by decide
  simp [h]

theorem buffer_load_eq (buf : Buffer) (i : Nat) (h : i < VGA_WIDTH * VGA_HEIGHT) :
    buffer_load buf i = some (buf ⟨i, h⟩) := by
  unfold buffer_load
  rw [dif_pos h]

theorem write_plain (s : Terminal) (hs : cursor_in_bounds s) (d : List Int)
    (hnl : ∀ c ∈ d, c ≠ 10) :
    ∃ t, terminal_write s d d.length = some t ∧
      t.terminal_color = s.terminal_color ∧
      t.terminal_column < 80 ∧
      t.terminal_row * 80 + t.terminal_column =
        (s.terminal_row * 80 + s.terminal_column + d.length) % 2000 ∧
      ∀ i, i < 2000 →
        (∀ k ch, d[k]? = some ch →
          (s.terminal_row * 80 + s.terminal_column + k) % 2000 = i →
          (∀ k', k' < d.length →
            (s.terminal_row * 80 + s.terminal_column + k') % 2000 = i → k' ≤ k) →
          buffer_load t.terminal_buffer i = some (vga_entry ch s.terminal_color)) ∧
        ((∀ k, k < d.length →
            (s.terminal_row * 80 + s.terminal_column + k) % 2000 ≠ i) →
          buffer_load t.terminal_buffer i = buffer_load s.terminal_buffer i) := by
  obtain ⟨t, hfold, hcol, ht, hpos, hcells⟩ := putchars_ring s hs d hnl
  refine ⟨t, ?_, hcol, ht.1, hpos, ?_⟩
  · rw [terminal_write_eq_foldlM s d d.length (Nat.le_refl _),
      List.take_of_length_le (Nat.le_refl _)]
    exact hfold
  · intro i hi
    have hb : i < VGA_WIDTH * VGA_HEIGHT := hi
    rw [buffer_load_eq _ i hb, buffer_load_eq _ i hb]
    constructor
    · intro k ch hk hhit hmax
      rw [(hcells ⟨i, hb⟩).1 k ch hk hhit hmax]
    · intro hno
      rw [(hcells ⟨i, hb⟩).2 hno]

/-! ## The specification -/

/-- C1: the cursor stays inside the grid.  `terminal_initialize` returns a state
whose cursor is in bounds.  From a state whose cursor is in bounds,
`terminal_putchar` returns a state whose cursor is in bounds, and so do
`terminal_write` on a size within the data and `terminal_writestring` on a
zero-terminated string; whatever their arguments, a state they return has its
cursor in bounds; and `terminal_setcolor` keeps the cursor in bounds.  Hence
`terminal_column < VGA_WIDTH` and `terminal_row < VGA_HEIGHT` in every state
reachable from `terminal_initialize` by a finite sequence of these calls. -/
theorem cursor_in_bounds_invariant :
    (∀ s0, ∃ s, terminal_initialize s0 = some s ∧ cursor_in_bounds s) ∧
    (∀ s c, cursor_in_bounds s →
      ∃ t, terminal_putchar s c = some t ∧ cursor_in_bounds t) ∧
    (∀ s data size, cursor_in_bounds s → size ≤ data.length →
      ∃ t, terminal_write s data size = some t ∧ cursor_in_bounds t) ∧
    (∀ s data, cursor_in_bounds s → (0 : Int) ∈ data →
      ∃ t, terminal_writestring s data = some t ∧ cursor_in_bounds t) ∧
    (∀ s t data size, cursor_in_bounds s → terminal_write s data size = some t →
      cursor_in_bounds t) ∧
    (∀ s t data, cursor_in_bounds s → terminal_writestring s data = some t →
      cursor_in_bounds t) ∧
    (∀ s color, cursor_in_bounds s → cursor_in_bounds (terminal_setcolor s color)) ∧
    (∀ s, Reachable s →
      s.terminal_column < VGA_WIDTH ∧ s.terminal_row < VGA_HEIGHT) := by
  refine ⟨?_, ?_, ?_, ?_, ?_, ?_, ?_, ?_⟩
  · intro s0
    exact ⟨fresh, terminal_initialize_eq s0, fresh_in_bounds⟩
  · intro s c hs
    have h := terminal_putchar_eq s c hs.1 hs.2
    exact ⟨_, h, terminal_putchar_in_bounds s _ c hs h⟩
  · intro s data size hs h
    exact terminal_write_some s data size hs h
  · intro s data hs h
    exact terminal_writestring_some s data hs h
  · intro s t data size hs h
    exact terminal_write_in_bounds s t data size hs h
  · intro s t data hs h
    exact terminal_writestring_in_bounds s t data hs h
  · intro s color hs
    exact hs
  · intro s hs
    exact reachable_in_bounds s hs

/-- C1, at the state reached by `terminal_setcolor(0x1F); terminal_putchar('H')`. -/
theorem cursor_in_bounds_invariant_witness :
    Reachable after_H ∧
      after_H.terminal_column < VGA_WIDTH ∧ after_H.terminal_row < VGA_HEIGHT :=
  ⟨reachable_after_H, cursor_in_bounds_invariant.2.2.2.2.2.2.2 after_H reachable_after_H⟩

/-- C2: one step of `terminal_putchar`.  From a state whose cursor `(col, row)` is
in bounds, with active colour `k`, `terminal_putchar(c)` returns a state in which
the cell at index `row * 80 + col` is `vga_entry(c, k)`; its cursor is
`(col + 1, row)` when `col + 1 != 80` and `c != 10`, otherwise `(0, row + 1)`
when `row + 1 != 25` and `(0, 0)` when `row + 1 == 25`.  It holds for every `int`
argument `c`, so for every byte. -/
theorem terminal_putchar_step (s : Terminal) (c : Int)
    (hc : s.terminal_column < 80) (hr : s.terminal_row < 25) :
    ∃ t, terminal_putchar s c = some t ∧
      buffer_load t.terminal_buffer (s.terminal_row * 80 + s.terminal_column) =
        some (vga_entry c s.terminal_color) ∧
      ((s.terminal_column + 1 ≠ 80 ∧ c ≠ 10) →
        t.terminal_column = s.terminal_column + 1 ∧ t.terminal_row = s.terminal_row) ∧
      (¬ (s.terminal_column + 1 ≠ 80 ∧ c ≠ 10) → s.terminal_row + 1 ≠ 25 →
        t.terminal_column = 0 ∧ t.terminal_row = s.terminal_row + 1) ∧
      (¬ (s.terminal_column + 1 ≠ 80 ∧ c ≠ 10) → s.terminal_row + 1 = 25 →
        t.terminal_column = 0 ∧ t.terminal_row = 0) := by
  refine ⟨_, terminal_putchar_eq s c hc hr, ?_, ?_, ?_, ?_⟩
  · have hb : s.terminal_row * 80 + s.terminal_column < VGA_WIDTH * VGA_HEIGHT := by
      simp only [VGA_WIDTH, VGA_HEIGHT]; omega
    unfold buffer_load
    rw [dif_pos hb]
    simp
  · intro h
    have hw : ¬ (s.terminal_column + 1 = VGA_WIDTH ∨ c = 10) := by
      intro h'
      rcases h' with h' | h'
      · exact h.1 h'
      · exact h.2 h'
    simp only [if_neg hw, and_self]
  · intro h hrow
    have hw : s.terminal_column + 1 = VGA_WIDTH ∨ c = 10 := by
      by_cases h1 : s.terminal_column + 1 = 80
      · exact Or.inl h1
      · by_cases h2 : c = 10
        · exact Or.inr h2
        · exact absurd ⟨h1, h2⟩ h
    have hh : ¬ s.terminal_row + 1 = VGA_HEIGHT := hrow
    simp only [if_pos hw, if_neg hh, and_self]
  · intro h hrow
    have hw : s.terminal_column + 1 = VGA_WIDTH ∨ c = 10 := by
      by_cases h1 : s.terminal_column + 1 = 80
      · exact Or.inl h1
      · by_cases h2 : c = 10
        · exact Or.inr h2
        · exact absurd ⟨h1, h2⟩ h
    have hh : s.terminal_row + 1 = VGA_HEIGHT := hrow
    simp only [if_pos hw, if_pos hh, and_self]

/-- C2, at the cursor `(79, 24)` of a blank screen and the byte `'A'`: the cell
is stored at index 1999 and the cursor wraps to `(0, 0)`. -/
theorem terminal_putchar_step_witness :
    (79 < 80 ∧ 24 < 25) ∧
    ∃ t, terminal_putchar { fresh with terminal_row := 24, terminal_column := 79 } 65
        = some t ∧
      buffer_load t.terminal_buffer (24 * 80 + 79) = some (vga_entry 65 7) ∧
      (((79 : Nat) + 1 ≠ 80 ∧ (65 : Int) ≠ 10) →
        t.terminal_column = 79 + 1 ∧ t.terminal_row = 24) ∧
      (¬ ((79 : Nat) + 1 ≠ 80 ∧ (65 : Int) ≠ 10) → 24 + 1 ≠ 25 →
        t.terminal_column = 0 ∧ t.terminal_row = 24 + 1) ∧
      (¬ ((79 : Nat) + 1 ≠ 80 ∧ (65 : Int) ≠ 10) → 24 + 1 = 25 →
        t.terminal_column = 0 ∧ t.terminal_row = 0) :=
  ⟨by decide,
    terminal_putchar_step { fresh with terminal_row := 24, terminal_column := 79 } 65
      (by decide) (by decide)⟩

/-- C3: writes stay inside the grid.  In every state reachable from
`terminal_initialize` by calls of `terminal_putchar`, `terminal_write`,
`terminal_writestring` and `terminal_setcolor`, the offset `y * VGA_WIDTH + x` at
which `terminal_putchar` stores its cell is below `VGA_WIDTH * VGA_HEIGHT = 2000`,
so the bounds-checked store does not take its out-of-range branch and
`terminal_putchar` returns a state. -/
theorem writes_stay_in_grid (s : Terminal) (h : Reachable s) :
    (s.terminal_row * VGA_WIDTH + s.terminal_column) % SIZE_MOD < 2000 ∧
    s.terminal_row * VGA_WIDTH + s.terminal_column < VGA_WIDTH * VGA_HEIGHT ∧
    ∀ c : Int,
      buffer_store s.terminal_buffer
        ((s.terminal_row * VGA_WIDTH + s.terminal_column) % SIZE_MOD)
        (vga_entry (to_char c) s.terminal_color) ≠ none ∧
      terminal_putentryat s c s.terminal_color s.terminal_column s.terminal_row ≠ none ∧
      terminal_putchar s c ≠ none := by
  obtain ⟨hc, hr⟩ := reachable_in_bounds s h
  have hb : s.terminal_row * VGA_WIDTH + s.terminal_column < VGA_WIDTH * VGA_HEIGHT := by
    simp only [VGA_WIDTH, VGA_HEIGHT] at *; omega
  have hi : (s.terminal_row * VGA_WIDTH + s.terminal_column) % SIZE_MOD =
      s.terminal_row * VGA_WIDTH + s.terminal_column := by
    simp only [VGA_WIDTH, VGA_HEIGHT, SIZE_MOD] at *; omega
  refine ⟨by rw [hi]; exact hb, hb, ?_⟩
  intro c
  refine ⟨?_, ?_, ?_⟩
  · rw [hi, buffer_store_eq _ _ _ hb]; simp
  · rw [terminal_putentryat_eq s c _ _ _ hc hr]; simp
  · rw [terminal_putchar_eq s c hc hr]; simp

/-- C3, at the state reached by `terminal_setcolor(0x1F); terminal_putchar('H')`. -/
theorem writes_stay_in_grid_witness :
    Reachable after_H ∧
    (after_H.terminal_row * VGA_WIDTH + after_H.terminal_column) % SIZE_MOD < 2000 ∧
    after_H.terminal_row * VGA_WIDTH + after_H.terminal_column < VGA_WIDTH * VGA_HEIGHT ∧
    ∀ c : Int,
      buffer_store after_H.terminal_buffer
        ((after_H.terminal_row * VGA_WIDTH + after_H.terminal_column) % SIZE_MOD)
        (vga_entry (to_char c) after_H.terminal_color) ≠ none ∧
      terminal_putentryat after_H c after_H.terminal_color after_H.terminal_column
        after_H.terminal_row ≠ none ∧
      terminal_putchar after_H c ≠ none :=
  ⟨reachable_after_H, writes_stay_in_grid after_H reachable_after_H⟩

/-- C4: initialisation resets the terminal whatever the prior state.
`terminal_initialize` returns a state with `terminal_row = 0`,
`terminal_column = 0`, `terminal_color = vga_entry_color(7, 0) = 0x07`, and every
one of the `80 * 25` cells equal to `vga_entry(' ', 0x07) = 0x0720`, which decodes
to the space character and the default colour.  The result is the same for every
input state, and initialising twice gives the state of initialising once. -/
theorem terminal_initialize_resets (s : Terminal) :
    (∃ t, terminal_initialize s = some t ∧
      t.terminal_row = 0 ∧ t.terminal_column = 0 ∧
      t.terminal_color = vga_entry_color VGA_COLOR_LIGHT_GREY VGA_COLOR_BLACK ∧
      t.terminal_color = 0x07 ∧
      (∀ j, t.terminal_buffer j = vga_entry 32 t.terminal_color) ∧
      (∀ i, i < 80 * 25 → buffer_load t.terminal_buffer i = some 0x0720) ∧
      (∀ j, t.terminal_buffer j % 256 = 32 ∧ t.terminal_buffer j / 256 = 0x07)) ∧
    (∀ s', terminal_initialize s' = terminal_initialize s) ∧
    ( terminal_initialize s).bind terminal_initialize = terminal_initialize s := by
  refine ⟨⟨fresh, terminal_initialize_eq s, rfl, rfl, by decide, rfl, ?_, ?_, ?_⟩, ?_, ?_⟩
  · intro j
    show 1824 = vga_entry 32 7
    decide
  · intro i hi
    unfold buffer_load
    rw [dif_pos hi]
    rfl
  · intro j
    show 1824 % 256 = 32 ∧ 1824 / 256 = 7
    decide
  · intro s'
    rw [terminal_initialize_eq, terminal_initialize_eq]
  · rw [terminal_initialize_eq, Option.some_bind, terminal_initialize_eq]

/-- C5: cell encoding round trip and bit layout.  For every byte `c` and colour
indices `fg`, `bg` in `[0, 15]`, the cell `e = vga_entry(c, vga_entry_color(fg, bg))`
has `e & 0xFF = c`, `(e >> 8) & 0xF = fg`, `(e >> 12) & 0xF = bg`, and
`e = c + 256 * fg + 4096 * bg`. -/
theorem vga_entry_round_trip (c fg bg : Nat) (hc : c < 256) (hfg : fg < 16)
    (hbg : bg < 16) :
    vga_entry c (vga_entry_color fg bg) &&& 0xFF = c ∧
    (vga_entry c (vga_entry_color fg bg) >>> 8) &&& 0xF = fg ∧
    (vga_entry c (vga_entry_color fg bg) >>> 12) &&& 0xF = bg ∧
    vga_entry c (vga_entry_color fg bg) = c + 256 * fg + 4096 * bg := by
  have he : vga_entry c (vga_entry_color fg bg) = c + 256 * fg + 4096 * bg := by
    rw [vga_entry_eq, vga_entry_color_eq fg bg hfg, to_uchar_ofNat c hc]
    omega
  have h8 : ∀ x : Nat, x &&& 0xFF = x % 256 := fun x =>
    Nat.and_pow_two_sub_one_eq_mod x 8
  have h4 : ∀ x : Nat, x &&& 0xF = x % 16 := fun x =>
    Nat.and_pow_two_sub_one_eq_mod x 4
  rw [he, h8, h4, h4, Nat.shiftRight_eq_div_pow, Nat.shiftRight_eq_div_pow]
  refine ⟨by omega, by omega, by omega, rfl⟩

/-- C5, at the character `'H'`, foreground white (15) and background blue (1). -/
theorem vga_entry_round_trip_witness :
    (72 < 256 ∧ 15 < 16 ∧ 1 < 16) ∧
    vga_entry (72 : Nat) (vga_entry_color 15 1) &&& 0xFF = 72 ∧
    (vga_entry (72 : Nat) (vga_entry_color 15 1) >>> 8) &&& 0xF = 15 ∧
    (vga_entry (72 : Nat) (vga_entry_color 15 1) >>> 12) &&& 0xF = 1 ∧
    vga_entry (72 : Nat) (vga_entry_color 15 1) = 72 + 256 * 15 + 4096 * 1 :=
  ⟨by decide, vga_entry_round_trip 72 15 1 (by decide) (by decide) (by decide)⟩

/-- C6: `terminal_write` is the in-order fold of `terminal_putchar` over the first
`size` bytes.  For every state, data and `size <= length(data)`,
`terminal_write(data, size)` gives what applying `terminal_putchar` to `data[0]`,
..., `data[size-1]` in that order gives; it is the same for any other data with
the same first `size` bytes; and it returns a state when the cursor is in
bounds. -/
theorem terminal_write_is_fold (s : Terminal) (data : List Int) (size : Nat)
    (h : size ≤ data.length) :
    terminal_write s data size = List.foldlM terminal_putchar s (data.take size) ∧
    (∀ data' : List Int, size ≤ data'.length → data'.take size = data.take size →
      terminal_write s data' size = terminal_write s data size) ∧
    (cursor_in_bounds s → ∃ t, terminal_write s data size = some t) := by
  refine ⟨terminal_write_eq_foldlM s data size h, ?_, ?_⟩
  · intro data' h' heq
    rw [terminal_write_eq_foldlM s data size h, terminal_write_eq_foldlM s data' size h', heq]
  · intro hs
    obtain ⟨t, ht, _⟩ := terminal_write_some s data size hs h
    exact ⟨t, ht⟩

/-- C6, at the first two bytes of `"Hi!"` on a blank screen. -/
theorem terminal_write_is_fold_witness :
    2 ≤ ([72, 105, 33] : List Int).length ∧
    terminal_write fresh [72, 105, 33] 2 =
      List.foldlM terminal_putchar fresh (([72, 105, 33] : List Int).take 2) ∧
    (∀ data' : List Int, 2 ≤ data'.length →
      data'.take 2 = ([72, 105, 33] : List Int).take 2 →
      terminal_write fresh data' 2 = terminal_write fresh [72, 105, 33] 2) ∧
    (cursor_in_bounds fresh → ∃ t, terminal_write fresh [72, 105, 33] 2 = some t) :=
  ⟨by decide, terminal_write_is_fold fresh [72, 105, 33] 2 (by decide)⟩

/-- C7: `strlen` and `terminal_writestring`.  For every data that contains a zero
byte, there is a least index `n` with `data[n] = 0`; `strlen(data)` returns that
`n`, the number of bytes before the first zero byte, and
`terminal_writestring(data)` gives exactly what `terminal_write(data, n)` gives
from the same state. -/
theorem strlen_and_writestring (data : List Int) (h : (0 : Int) ∈ data) :
    ∃ n, n < data.length ∧ data[n]? = some 0 ∧ (∀ k, k < n → data[k]? ≠ some 0) ∧
      strlen data = some n ∧
      ∀ s, terminal_writestring s data = terminal_write s data n := by
  obtain ⟨n, hlt, hn, hmin⟩ := first_zero_exists data h
  have hs := strlen_eq data n hn hmin
  refine ⟨n, hlt, hn, hmin, hs, ?_⟩
  intro s
  unfold terminal_writestring
  rw [hs, Option.some_bind]

/-- C7, at the string `"Hello, kernel World!\n"` of `kernel_main`. -/
theorem strlen_and_writestring_witness :
    (0 : Int) ∈ hello ∧
    ∃ n, n < hello.length ∧ hello[n]? = some 0 ∧ (∀ k, k < n → hello[k]? ≠ some 0) ∧
      strlen hello = some n ∧
      ∀ s, terminal_writestring s hello = terminal_write s hello n :=
  ⟨by decide, strlen_and_writestring hello (by decide)⟩

/-- C8: the hello-world scenario.  From a freshly initialised terminal,
`terminal_writestring("Hello, kernel World!\n")` returns exactly the state that
`terminal_write` of the same data with length 21 returns (it is the state
`kernel_main` ends in): each of the 21 bytes, the newline byte `0x0A` included, is
stored with the default colour at the consecutive cells 0..20 of row 0, every
other cell is the blank cell `0x0720`, and the cursor is at column 0 of row 1. -/
theorem hello_world_scenario (s0 : Terminal) :
    ∃ t0 t, terminal_initialize s0 = some t0 ∧
      terminal_writestring t0 hello = some t ∧
      terminal_write t0 hello 21 = some t ∧
      kernel_main s0 = some t ∧
      t.terminal_column = 0 ∧ t.terminal_row = 1 ∧
      (∀ i ch, i < 21 → hello[i]? = some ch →
        buffer_load t.terminal_buffer i = some (vga_entry ch 7)) ∧
      buffer_load t.terminal_buffer 0 = some 0x0748 ∧
      buffer_load t.terminal_buffer 20 = some 0x070A ∧
      (∀ i, 21 ≤ i → i < 80 * 25 → buffer_load t.terminal_buffer i = some 0x0720) := by
  obtain ⟨t, hw, hcol, hrow, _, hbuf⟩ := write_hello
  have hlen : strlen hello = some 21 := by decide
  have hws : terminal_writestring fresh hello = some t := by
    unfold terminal_writestring
    rw [hlen, Option.some_bind, hw]
  have hcell : ∀ i ch, i < 21 → hello[i]? = some ch →
      buffer_load t.terminal_buffer i = some (vga_entry ch 7) := by
    intro i ch hi hch
    have hb : i < VGA_WIDTH * VGA_HEIGHT := by simp only [VGA_WIDTH, VGA_HEIGHT]; omega
    unfold buffer_load
    rw [dif_pos hb, hbuf]
    simp only [List.getElem?_take, if_pos hi, hch]
  refine ⟨fresh, t, terminal_initialize_eq s0, hws, hw, ?_, hcol, hrow, hcell, ?_, ?_, ?_⟩
  · unfold kernel_main
    rw [terminal_initialize_eq, Option.some_bind, hws]
  · exact hcell 0 72 (by decide) (by decide)
  · exact hcell 20 10 (by decide) (by decide)
  · intro i hi hlt
    unfold buffer_load
    rw [dif_pos hlt, hbuf]
    have hnot : ¬ i < 21 := by omega
    simp only [List.getElem?_take, if_neg hnot]

/-- C9: empty writes change nothing.  For every state and data,
`terminal_write(data, 0)` returns the state unchanged, and so does
`terminal_writestring` of a string whose first byte is zero. -/
theorem empty_writes_are_no_ops (s : Terminal) (data : List Int) :
    terminal_write s data 0 = some s ∧
    terminal_writestring s (0 :: data) = some s ∧
    terminal_writestring s [0] = some s := by
  refine ⟨rfl, ?_, rfl⟩
  unfold terminal_writestring strlen
  simp [strlen_loop, terminal_write, for_loop]

/-- C10, as stated, fails on the last row: from the cursor `(0, 24)`, writing 80
times the byte `'a'` leaves the cursor at `(0, 0)`, not at `(0, 24 + 1)`. -/
theorem full_row_write_last_row :
    ((24 : Nat) < VGA_HEIGHT ∧ (List.replicate 80 (97 : Int)).length = VGA_WIDTH ∧
      ∀ c ∈ List.replicate 80 (97 : Int), c ≠ 10) ∧
    (terminal_write { fresh with terminal_row := 24 } (List.replicate 80 97) 80).map
      (fun t => (t.terminal_column, t.terminal_row)) = some (0, 0) ∧
    (terminal_write { fresh with terminal_row := 24 } (List.replicate 80 97) 80).map
      (fun t => (t.terminal_column, t.terminal_row)) ≠ some (0, 24 + 1) := by
  decide

/-- C10, amended: for every in-bounds cursor row `r` with cursor column 0 and
every sequence of `VGA_WIDTH` bytes none of which is the newline character,
`terminal_write` of those 80 bytes returns a state whose cursor is at column 0 of
row `r + 1` when `r + 1 < VGA_HEIGHT` and of row 0 when `r + 1 = VGA_HEIGHT`, and
in which, for every `x` in `[0, 80)`, the cell at `(x, r)` holds the `x`-th
written character with the active colour. -/
theorem full_row_write (s : Terminal) (data : List Int)
    (hr : s.terminal_row < VGA_HEIGHT) (hc : s.terminal_column = 0)
    (hlen : data.length = VGA_WIDTH) (hnl : ∀ c ∈ data, c ≠ 10) :
    ∃ t, terminal_write s data VGA_WIDTH = some t ∧
      t.terminal_column = 0 ∧
      (s.terminal_row + 1 < VGA_HEIGHT → t.terminal_row = s.terminal_row + 1) ∧
      (s.terminal_row + 1 = VGA_HEIGHT → t.terminal_row = 0) ∧
      ∀ x ch, x < VGA_WIDTH → data[x]? = some ch →
        buffer_load t.terminal_buffer (s.terminal_row * VGA_WIDTH + x) =
          some (vga_entry ch s.terminal_color) := by
  obtain ⟨t, hw, hcol, hrow, _, hcells⟩ := write_full_row s data hr hc hlen hnl
  refine ⟨t, hw, hcol, ?_, ?_, hcells⟩
  · intro h
    rw [hrow, if_neg (by omega)]
  · intro h
    rw [hrow, if_pos h]

/-- C10, amended, at row 3 of a blank screen and 80 times the byte `'a'`. -/
theorem full_row_write_witness :
    ((3 : Nat) < VGA_HEIGHT ∧ (0 : Nat) = 0 ∧
      (List.replicate 80 (97 : Int)).length = VGA_WIDTH ∧
      ∀ c ∈ List.replicate 80 (97 : Int), c ≠ 10) ∧
    ∃ t, terminal_write { fresh with terminal_row := 3 } (List.replicate 80 97) VGA_WIDTH
        = some t ∧
      t.terminal_column = 0 ∧
      (3 + 1 < VGA_HEIGHT → t.terminal_row = 3 + 1) ∧
      (3 + 1 = VGA_HEIGHT → t.terminal_row = 0) ∧
      ∀ x ch, x < VGA_WIDTH → (List.replicate 80 (97 : Int))[x]? = some ch →
        buffer_load t.terminal_buffer (3 * VGA_WIDTH + x) = some (vga_entry ch 7) :=
  ⟨by decide,
    full_row_write { fresh with terminal_row := 3 } (List.replicate 80 97)
      (by decide) rfl (by decide) (by decide)⟩

/-- C11, as stated, fails on the last row: from the cursor `(5, 24)` of a blank
screen, `terminal_putchar('\n')` stores the cell `0x070A` at index `24 * 80 + 5`
and leaves the cursor at `(0, 0)`, not at `(0, 24 + 1)`. -/
theorem newline_on_last_row :
    ((5 : Nat) < VGA_WIDTH ∧ (24 : Nat) < VGA_HEIGHT) ∧
    (terminal_putchar { fresh with terminal_row := 24, terminal_column := 5 } 10).bind
      (fun t => buffer_load t.terminal_buffer (24 * 80 + 5)) = some 0x070A ∧
    (terminal_putchar { fresh with terminal_row := 24, terminal_column := 5 } 10).map
      (fun t => (t.terminal_column, t.terminal_row)) = some (0, 0) ∧
    (terminal_putchar { fresh with terminal_row := 24, terminal_column := 5 } 10).map
      (fun t => (t.terminal_column, t.terminal_row)) ≠ some (0, 24 + 1) := by
  decide

/-- C11, amended: for every in-bounds cursor `(col, row)` and active colour `k`,
`terminal_putchar('\n')` stores the visible cell `vga_entry(0x0A, k)` at the
pre-advance position `(col, row)`, and afterwards the cursor is at column 0 of
row `row + 1` when `row + 1 < VGA_HEIGHT` and of row 0 when
`row + 1 = VGA_HEIGHT`. -/
theorem newline_is_rendered (s : Terminal)
    (hc : s.terminal_column < VGA_WIDTH) (hr : s.terminal_row < VGA_HEIGHT) :
    ∃ t, terminal_putchar s 10 = some t ∧
      buffer_load t.terminal_buffer (s.terminal_row * VGA_WIDTH + s.terminal_column) =
        some (vga_entry 0x0A s.terminal_color) ∧
      vga_entry 0x0A s.terminal_color = 0x0A + 256 * (s.terminal_color % 256) ∧
      t.terminal_column = 0 ∧
      (s.terminal_row + 1 < VGA_HEIGHT → t.terminal_row = s.terminal_row + 1) ∧
      (s.terminal_row + 1 = VGA_HEIGHT → t.terminal_row = 0) := by
  have hb : s.terminal_row * VGA_WIDTH + s.terminal_column < VGA_WIDTH * VGA_HEIGHT := by
    simp only [VGA_WIDTH, VGA_HEIGHT] at *; omega
  refine ⟨_, terminal_putchar_eq s 10 hc hr, ?_, ?_, ?_, ?_, ?_⟩
  · unfold buffer_load
    rw [dif_pos hb]
    simp
  · rw [vga_entry_eq]
    rfl
  · simp only [or_true, if_true]
  · intro h
    have hh : ¬ s.terminal_row + 1 = VGA_HEIGHT := by omega
    simp only [or_true, if_true, if_neg hh]
  · intro h
    simp only [or_true, if_true, if_pos h]

/-- C11, amended, at the cursor `(5, 2)` of a blank screen. -/
theorem newline_is_rendered_witness :
    ((5 : Nat) < VGA_WIDTH ∧ (2 : Nat) < VGA_HEIGHT) ∧
    ∃ t, terminal_putchar { fresh with terminal_row := 2, terminal_column := 5 } 10
        = some t ∧
      buffer_load t.terminal_buffer (2 * VGA_WIDTH + 5) = some (vga_entry 0x0A 7) ∧
      vga_entry 0x0A 7 = 0x0A + 256 * (7 % 256) ∧
      t.terminal_column = 0 ∧
      (2 + 1 < VGA_HEIGHT → t.terminal_row = 2 + 1) ∧
      (2 + 1 = VGA_HEIGHT → t.terminal_row = 0) :=
  ⟨by decide,
    newline_is_rendered { fresh with terminal_row := 2, terminal_column := 5 }
      (by decide) (by decide)⟩

/-- C12: wrap-around without scrolling.  From the cursor `(0, 0)`, for every
`k < VGA_WIDTH` and every sequence `d` of `2000 + k` non-newline bytes,
`terminal_write(d, 2000 + k)` returns a state whose cursor is at column `k` of
row 0; the last `k` characters `d[2000 .. 2000 + k)` occupy the columns `[0, k)`
of row 0; the cell at index `i` still holds `d[i]` for `80 <= i < 2000` (the rows
1 to 24), and so does row 0 at the columns `[k, 80)`. -/
theorem wrap_around_without_scrolling (s : Terminal) (k : Nat) (d : List Int)
    (hrow : s.terminal_row = 0) (hcol : s.terminal_column = 0) (hk : k < VGA_WIDTH)
    (hlen : d.length = VGA_HEIGHT * VGA_WIDTH + k) (hnl : ∀ c ∈ d, c ≠ 10) :
    ∃ t, terminal_write s d (VGA_HEIGHT * VGA_WIDTH + k) = some t ∧
      t.terminal_column = k ∧ t.terminal_row = 0 ∧
      (∀ x ch, x < k → d[VGA_HEIGHT * VGA_WIDTH + x]? = some ch →
        buffer_load t.terminal_buffer x = some (vga_entry ch s.terminal_color)) ∧
      (∀ i ch, VGA_WIDTH ≤ i → i < VGA_HEIGHT * VGA_WIDTH → d[i]? = some ch →
        buffer_load t.terminal_buffer i = some (vga_entry ch s.terminal_color)) ∧
      (∀ i ch, k ≤ i → i < VGA_WIDTH → d[i]? = some ch →
        buffer_load t.terminal_buffer i = some (vga_entry ch s.terminal_color)) := by
  have hs : cursor_in_bounds s := by
    unfold cursor_in_bounds
    rw [hrow, hcol]
    decide
  obtain ⟨t, hw, _, hc80, hpos, hcells⟩ := write_plain s hs d hnl
  simp only [VGA_WIDTH, VGA_HEIGHT] at *
  rw [hlen] at hw
  refine ⟨t, hw, by omega, by omega, ?_, ?_, ?_⟩
  · intro x ch hx hch
    exact (hcells x (by omega)).1 (25 * 80 + x) ch hch (by omega)
      (fun k' hk' hh => by omega)
  · intro i ch h1 h2 hch
    exact (hcells i (by omega)).1 i ch hch (by omega) (fun k' hk' hh => by omega)
  · intro i ch h1 h2 hch
    exact (hcells i (by omega)).1 i ch hch (by omega) (fun k' hk' hh => by omega)

/-- C12, at a blank screen, `k = 3` and 2003 times the byte `'a'`. -/
theorem wrap_around_without_scrolling_witness :
    (fresh.terminal_row = 0 ∧ fresh.terminal_column = 0 ∧ 3 < VGA_WIDTH ∧
      (List.replicate 2003 (97 : Int)).length = VGA_HEIGHT * VGA_WIDTH + 3 ∧
      ∀ c ∈ List.replicate 2003 (97 : Int), c ≠ 10) ∧
    ∃ t, terminal_write fresh (List.replicate 2003 97) (VGA_HEIGHT * VGA_WIDTH + 3)
        = some t ∧
      t.terminal_column = 3 ∧ t.terminal_row = 0 ∧
      (∀ x ch, x < 3 →
        (List.replicate 2003 (97 : Int))[VGA_HEIGHT * VGA_WIDTH + x]? = some ch →
        buffer_load t.terminal_buffer x = some (vga_entry ch fresh.terminal_color)) ∧
      (∀ i ch, VGA_WIDTH ≤ i → i < VGA_HEIGHT * VGA_WIDTH →
        (List.replicate 2003 (97 : Int))[i]? = some ch →
        buffer_load t.terminal_buffer i = some (vga_entry ch fresh.terminal_color)) ∧
      (∀ i ch, 3 ≤ i → i < VGA_WIDTH →
        (List.replicate 2003 (97 : Int))[i]? = some ch →
        buffer_load t.terminal_buffer i = some (vga_entry ch fresh.terminal_color)) :=
  by
  have hlen : (List.replicate 2003 (97 : Int)).length = VGA_HEIGHT * VGA_WIDTH + 3 :=
    List.length_replicate 2003 (97 : Int)
  have hnl : ∀ c ∈ List.replicate 2003 (97 : Int), c ≠ 10 := fun c hc => by
    rw [List.eq_of_mem_replicate hc]; decide
  constructor
  · exact ⟨rfl, rfl, by decide, hlen, hnl⟩
  · exact wrap_around_without_scrolling fresh 3 (List.replicate 2003 97) rfl rfl
      (by decide) hlen hnl

/-- C13: frame and effect of `terminal_setcolor`.  For every state and colour
byte `k`, `terminal_setcolor(k)` sets `terminal_color` to `k` and leaves the
cursor row, the cursor column and every cell of the buffer unchanged; a
following `terminal_putchar(c)` stores a cell whose attribute byte (bits 8-15)
is `k`.  Conversely a state returned by `terminal_putchar`, `terminal_write` or
`terminal_writestring` has the `terminal_color` it was called with. -/
theorem terminal_setcolor_frame (s : Terminal) (k : Nat) (hk : k < 256) :
    (terminal_setcolor s k).terminal_color = k ∧
    (terminal_setcolor s k).terminal_row = s.terminal_row ∧
    (terminal_setcolor s k).terminal_column = s.terminal_column ∧
    (terminal_setcolor s k).terminal_buffer = s.terminal_buffer ∧
    (∀ c : Int, cursor_in_bounds s →
      ∃ t cell, terminal_putchar (terminal_setcolor s k) c = some t ∧
        buffer_load t.terminal_buffer (s.terminal_row * VGA_WIDTH + s.terminal_column) =
          some cell ∧
        cell / 256 = k ∧ (cell >>> 8) &&& 0xFF = k) ∧
    (∀ u c t, terminal_putchar u c = some t → t.terminal_color = u.terminal_color) ∧
    (∀ u data size t, terminal_write u data size = some t →
      t.terminal_color = u.terminal_color) ∧
    (∀ u data t, terminal_writestring u data = some t →
      t.terminal_color = u.terminal_color) := by
  have hmod : k % 256 = k := Nat.mod_eq_of_lt hk
  refine ⟨hmod, rfl, rfl, rfl, ?_, ?_, ?_, ?_⟩
  · intro c hs
    have hb : s.terminal_row * VGA_WIDTH + s.terminal_column < VGA_WIDTH * VGA_HEIGHT := by
      have h1 := hs.1
      have h2 := hs.2
      simp only [VGA_WIDTH, VGA_HEIGHT] at *; omega
    have hattr : vga_entry c (k % 256) / 256 = k := by
      rw [vga_entry_attr, Nat.mod_mod, hmod]
    refine ⟨_, vga_entry c (k % 256),
      terminal_putchar_eq (terminal_setcolor s k) c hs.1 hs.2, ?_, hattr, ?_⟩
    · rw [buffer_load_eq _ _ hb]
      simp [terminal_setcolor]
    · have h8 : ∀ x : Nat, x &&& 0xFF = x % 256 := fun x =>
        Nat.and_pow_two_sub_one_eq_mod x 8
      rw [h8, Nat.shiftRight_eq_div_pow]
      show vga_entry c (k % 256) / 256 % 256 = k
      rw [hattr, hmod]
  · intro u c t h
    exact (terminal_putchar_frame u t c h).1
  · intro u data size t h
    exact terminal_write_color u t data size h
  · intro u data t h
    exact terminal_writestring_color u t data h

/-- C13, at a blank screen and the colour byte `0x1F`. -/
theorem terminal_setcolor_frame_witness :
    (31 < 256) ∧
    (terminal_setcolor fresh 31).terminal_color = 31 ∧
    (terminal_setcolor fresh 31).terminal_row = fresh.terminal_row ∧
    (terminal_setcolor fresh 31).terminal_column = fresh.terminal_column ∧
    (terminal_setcolor fresh 31).terminal_buffer = fresh.terminal_buffer ∧
    (∀ c : Int, cursor_in_bounds fresh →
      ∃ t cell, terminal_putchar (terminal_setcolor fresh 31) c = some t ∧
        buffer_load t.terminal_buffer
          (fresh.terminal_row * VGA_WIDTH + fresh.terminal_column) = some cell ∧
        cell / 256 = 31 ∧ (cell >>> 8) &&& 0xFF = 31) ∧
    (∀ u c t, terminal_putchar u c = some t → t.terminal_color = u.terminal_color) ∧
    (∀ u data size t, terminal_write u data size = some t →
      t.terminal_color = u.terminal_color) ∧
    (∀ u data t, terminal_writestring u data = some t →
      t.terminal_color = u.terminal_color) :=
  ⟨by decide, terminal_setcolor_frame fresh 31 (by decide)⟩

/-- C14: frame of `terminal_putentryat`.  For every in-bounds `(x, y)`, character
`c` and colour `k`, `terminal_putentryat(c, k, x, y)` sets the cell at index
`y * 80 + x` to `vga_entry(c, k)` and leaves every other cell, the cursor row, the
cursor column and the active colour unchanged; the cell written is the same from
any other state, whatever its cursor and active colour.  Hence
`terminal_putchar` changes no cell but the one at the pre-advance cursor
position. -/
theorem terminal_putentryat_frame (s : Terminal) (c : Int) (k x y : Nat)
    (hx : x < VGA_WIDTH) (hy : y < VGA_HEIGHT) :
    (∃ t, terminal_putentryat s c k x y = some t ∧
      buffer_load t.terminal_buffer (y * VGA_WIDTH + x) = some (vga_entry c k) ∧
      (∀ i, i < VGA_WIDTH * VGA_HEIGHT → i ≠ y * VGA_WIDTH + x →
        buffer_load t.terminal_buffer i = buffer_load s.terminal_buffer i) ∧
      t.terminal_row = s.terminal_row ∧ t.terminal_column = s.terminal_column ∧
      t.terminal_color = s.terminal_color) ∧
    (∀ s' : Terminal, ∃ t', terminal_putentryat s' c k x y = some t' ∧
      buffer_load t'.terminal_buffer (y * VGA_WIDTH + x) = some (vga_entry c k)) ∧
    (∀ u ch v, cursor_in_bounds u → terminal_putchar u ch = some v →
      ∀ i, i < VGA_WIDTH * VGA_HEIGHT →
        i ≠ u.terminal_row * VGA_WIDTH + u.terminal_column →
        buffer_load v.terminal_buffer i = buffer_load u.terminal_buffer i) := by
  have hb : y * VGA_WIDTH + x < VGA_WIDTH * VGA_HEIGHT := by
    simp only [VGA_WIDTH, VGA_HEIGHT] at *; omega
  refine ⟨⟨_, terminal_putentryat_eq s c k x y hx hy, ?_, ?_, rfl, rfl, rfl⟩, ?_, ?_⟩
  · rw [buffer_load_eq _ _ hb]
    simp
  · intro i hi hne
    rw [buffer_load_eq _ _ hi, buffer_load_eq _ _ hi]
    simp [hne]
  · intro s'
    refine ⟨_, terminal_putentryat_eq s' c k x y hx hy, ?_⟩
    rw [buffer_load_eq _ _ hb]
    simp
  · intro u ch v hu hv i hi hne
    have hidx : buffer_index u.terminal_column u.terminal_row =
        u.terminal_row * VGA_WIDTH + u.terminal_column := by
      have h1 := hu.1
      have h2 := hu.2
      unfold buffer_index
      simp only [VGA_WIDTH, VGA_HEIGHT, SIZE_MOD] at *; omega
    rw [buffer_load_eq _ _ hi, buffer_load_eq _ _ hi,
      (terminal_putchar_frame u v ch hv).2 ⟨i, hi⟩ (by rw [hidx]; exact hne)]

/-- C14, at a blank screen, the character `'H'`, the colour `0x1F` and the
position `(3, 2)`. -/
theorem terminal_putentryat_frame_witness :
    ((3 : Nat) < VGA_WIDTH ∧ (2 : Nat) < VGA_HEIGHT) ∧
    (∃ t, terminal_putentryat fresh 72 31 3 2 = some t ∧
      buffer_load t.terminal_buffer (2 * VGA_WIDTH + 3) = some (vga_entry 72 31) ∧
      (∀ i, i < VGA_WIDTH * VGA_HEIGHT → i ≠ 2 * VGA_WIDTH + 3 →
        buffer_load t.terminal_buffer i = buffer_load fresh.terminal_buffer i) ∧
      t.terminal_row = fresh.terminal_row ∧ t.terminal_column = fresh.terminal_column ∧
      t.terminal_color = fresh.terminal_color) ∧
    (∀ s' : Terminal, ∃ t', terminal_putentryat s' 72 31 3 2 = some t' ∧
      buffer_load t'.terminal_buffer (2 * VGA_WIDTH + 3) = some (vga_entry 72 31)) ∧
    (∀ u ch v, cursor_in_bounds u → terminal_putchar u ch = some v →
      ∀ i, i < VGA_WIDTH * VGA_HEIGHT →
        i ≠ u.terminal_row * VGA_WIDTH + u.terminal_column →
        buffer_load v.terminal_buffer i = buffer_load u.terminal_buffer i) :=
  ⟨by decide, terminal_putentryat_frame fresh 72 31 3 2 (by decide) (by decide)⟩

/-- C15: flat index arithmetic.  The index `terminal_putentryat` stores at is
`buffer_index`; for every valid `(column, row)` it is `row * VGA_WIDTH + column`;
it is strictly increasing in the column for a fixed row; the index of
`(0, row + 1)` is the index of `(VGA_WIDTH - 1, row)` plus one; and the map from
the in-bounds `(column, row)` to indices is injective with range exactly
`[0, 2000)`. -/
theorem flat_index_arithmetic :
    (∀ (s : Terminal) (c : Int) (k x y : Nat),
      terminal_putentryat s c k x y =
        (buffer_store s.terminal_buffer (buffer_index x y) (vga_entry (to_char c) k)).map
          (fun buf => { s with terminal_buffer := buf })) ∧
    (∀ x y, x < VGA_WIDTH → y < VGA_HEIGHT → buffer_index x y = y * VGA_WIDTH + x) ∧
    (∀ x x' y, x < x' → x' < VGA_WIDTH → y < VGA_HEIGHT →
      buffer_index x y < buffer_index x' y) ∧
    (∀ y, y < VGA_HEIGHT →
      buffer_index 0 (y + 1) = buffer_index (VGA_WIDTH - 1) y + 1) ∧
    (∀ x y x' y', x < VGA_WIDTH → y < VGA_HEIGHT → x' < VGA_WIDTH → y' < VGA_HEIGHT →
      buffer_index x y = buffer_index x' y' → x = x' ∧ y = y') ∧
    (∀ x y, x < VGA_WIDTH → y < VGA_HEIGHT → buffer_index x y < 2000) ∧
    (∀ i, i < 2000 → ∃ x y, x < VGA_WIDTH ∧ y < VGA_HEIGHT ∧ buffer_index x y = i) := by
  have hidx : ∀ x y, x < VGA_WIDTH → y < VGA_HEIGHT →
      buffer_index x y = y * VGA_WIDTH + x := by
    intro x y hx hy
    unfold buffer_index
    simp only [VGA_WIDTH, VGA_HEIGHT, SIZE_MOD] at *; omega
  refine ⟨fun s c k x y => rfl, hidx, ?_, ?_, ?_, ?_, ?_⟩
  · intro x x' y hlt hx' hy
    rw [hidx x y (by omega) hy, hidx x' y hx' hy]
    omega
  · intro y hy
    unfold buffer_index
    simp only [VGA_WIDTH, VGA_HEIGHT, SIZE_MOD] at *; omega
  · intro x y x' y' hx hy hx' hy' h
    rw [hidx x y hx hy, hidx x' y' hx' hy'] at h
    simp only [VGA_WIDTH, VGA_HEIGHT] at *; omega
  · intro x y hx hy
    rw [hidx x y hx hy]
    simp only [VGA_WIDTH, VGA_HEIGHT] at *; omega
  · intro i hi
    refine ⟨i % 80, i / 80, ?_, ?_, ?_⟩
    · simp only [VGA_WIDTH]; omega
    · simp only [VGA_HEIGHT]; omega
    · rw [hidx (i % 80) (i / 80) (by simp only [VGA_WIDTH]; omega)
        (by simp only [VGA_HEIGHT]; omega)]
      simp only [VGA_WIDTH]; omega

/-- C16: the character is truncated to its low byte.  For every `int` value `c`
passed to `terminal_putchar` (negative values and values above 255 included)
and every active colour byte `k`, the cell stored is `(c mod 256) + 256 * k`: its
low byte is the low byte of `c` and its bits 8-15 are `k`. -/
theorem character_truncation (s : Terminal) (c : Int)
    (hs : cursor_in_bounds s) (hk : s.terminal_color < 256) :
    ∃ t, terminal_putchar s c = some t ∧
      buffer_load t.terminal_buffer (s.terminal_row * VGA_WIDTH + s.terminal_column) =
        some ((c % 256).toNat + 256 * s.terminal_color) ∧
      ((c % 256).toNat + 256 * s.terminal_color) % 256 = (c % 256).toNat ∧
      ((c % 256).toNat + 256 * s.terminal_color) / 256 = s.terminal_color := by
  have hb : s.terminal_row * VGA_WIDTH + s.terminal_column < VGA_WIDTH * VGA_HEIGHT := by
    have h1 := hs.1
    have h2 := hs.2
    simp only [VGA_WIDTH, VGA_HEIGHT] at *; omega
  have hcell : vga_entry c s.terminal_color = (c % 256).toNat + 256 * s.terminal_color := by
    rw [vga_entry_eq, Nat.mod_eq_of_lt hk]
    rfl
  refine ⟨_, terminal_putchar_eq s c hs.1 hs.2, ?_, by omega, by omega⟩
  rw [buffer_load_eq _ _ hb]
  simp [hcell]

/-- C16, at a blank screen and the value `-23`: the cell stored is
`0xE9 + 256 * 7`. -/
theorem character_truncation_witness :
    (cursor_in_bounds fresh ∧ fresh.terminal_color < 256) ∧
    (∃ t, terminal_putchar fresh (-23) = some t ∧
      buffer_load t.terminal_buffer (fresh.terminal_row * VGA_WIDTH + fresh.terminal_column)
        = some (((-23 : Int) % 256).toNat + 256 * fresh.terminal_color) ∧
      (((-23 : Int) % 256).toNat + 256 * fresh.terminal_color) % 256 =
        ((-23 : Int) % 256).toNat ∧
      (((-23 : Int) % 256).toNat + 256 * fresh.terminal_color) / 256 =
        fresh.terminal_color) ∧
    ((-23 : Int) % 256).toNat = 0xE9 :=
  ⟨⟨fresh_in_bounds, by decide⟩,
    character_truncation fresh (-23) fresh_in_bounds (by decide), by decide⟩

/-- C17: out-of-range colour indices corrupt the adjacent bits.
`vga_entry_color(fg, bg)` is `(fg | (bg << 4)) mod 256` for all `fg`, `bg`, with no
validation; for `fg = 16 > 15` and `bg = 0` the background nibble (bits 4-7) of
the result is 1 and not `bg`, whereas for `fg <= 15` and `bg <= 15` the two
nibbles are `fg` and `bg`. -/
theorem out_of_range_colour_corrupts :
    (∀ fg bg, vga_entry_color fg bg = (fg ||| (bg <<< 4)) % 256) ∧
    (∃ fg bg, 15 < fg ∧ bg ≤ 15 ∧ (vga_entry_color fg bg >>> 4) &&& 0xF ≠ bg) ∧
    vga_entry_color 16 0 = 16 ∧ (vga_entry_color 16 0 >>> 4) &&& 0xF = 1 ∧
    (∀ fg bg, fg ≤ 15 → bg ≤ 15 →
      vga_entry_color fg bg &&& 0xF = fg ∧ (vga_entry_color fg bg >>> 4) &&& 0xF = bg) := by
  refine ⟨fun fg bg => rfl, ⟨16, 0, by decide, by decide, by decide⟩, by decide,
    by decide, ?_⟩
  intro fg bg hfg hbg
  have h4 : ∀ x : Nat, x &&& 0xF = x % 16 := fun x =>
    Nat.and_pow_two_sub_one_eq_mod x 4
  rw [vga_entry_color_eq fg bg (by omega), h4, h4, Nat.shiftRight_eq_div_pow]
  constructor <;> omega

/-- C18: closed form for plain text.  From a freshly initialised terminal, for
every sequence `d` of `n` non-newline bytes, `terminal_write(d, n)` returns a
state whose cursor is at column `n mod 80` of row `(n div 80) mod 25`, and in
which, for every index `i < 2000`, the cell at `i` is `vga_entry(d[j], 0x07)` for
the largest `j < n` with `j mod 2000 = i`, or the blank cell `0x0720` when there
is no such `j`. -/
theorem plain_text_closed_form (s0 : Terminal) (d : List Int)
    (hnl : ∀ c ∈ d, c ≠ 10) :
    ∃ t0 t, terminal_initialize s0 = some t0 ∧
      terminal_write t0 d d.length = some t ∧
      t.terminal_column = d.length % 80 ∧
      t.terminal_row = (d.length / 80) % 25 ∧
      ∀ i, i < 2000 →
        (∀ j ch, d[j]? = some ch → j % 2000 = i →
          (∀ j', j' < d.length → j' % 2000 = i → j' ≤ j) →
          buffer_load t.terminal_buffer i = some (vga_entry ch 0x07)) ∧
        ((∀ j, j < d.length → j % 2000 ≠ i) →
          buffer_load t.terminal_buffer i = some 0x0720) := by
  obtain ⟨t, hw, _, hc80, hpos, hcells⟩ := write_plain fresh fresh_in_bounds d hnl
  have hp : fresh.terminal_row * 80 + fresh.terminal_column = 0 := rfl
  simp only [hp, Nat.zero_add] at hpos hcells
  refine ⟨fresh, t, terminal_initialize_eq s0, hw, by omega, by omega, ?_⟩
  intro i hi
  constructor
  · intro j ch hj hhit hmax
    exact (hcells i hi).1 j ch hj hhit hmax
  · intro hno
    rw [(hcells i hi).2 hno, buffer_load_eq _ i hi]
    rfl

/-- C18, at the two bytes `"Hi"`. -/
theorem plain_text_closed_form_witness :
    (∀ c ∈ ([72, 105] : List Int), c ≠ 10) ∧
    ∃ t0 t, terminal_initialize fresh = some t0 ∧
      terminal_write t0 [72, 105] ([72, 105] : List Int).length = some t ∧
      t.terminal_column = ([72, 105] : List Int).length % 80 ∧
      t.terminal_row = (([72, 105] : List Int).length / 80) % 25 ∧
      ∀ i, i < 2000 →
        (∀ j ch, ([72, 105] : List Int)[j]? = some ch → j % 2000 = i →
          (∀ j', j' < ([72, 105] : List Int).length → j' % 2000 = i → j' ≤ j) →
          buffer_load t.terminal_buffer i = some (vga_entry ch 0x07)) ∧
        ((∀ j, j < ([72, 105] : List Int).length → j % 2000 ≠ i) →
          buffer_load t.terminal_buffer i = some 0x0720) :=
  ⟨by decide, plain_text_closed_form fresh [72, 105] (by decide)⟩

/-- C19: the newline test of `terminal_putchar` is made on the untruncated
argument.  For every `int` value `c` with `c mod 256 = 10` and `c != 10`, and every
in-bounds cursor with `column + 1 < 80`, `terminal_putchar(c)` stores a cell
whose character byte is `0x0A` and moves the cursor to `(column + 1, row)`,
without a row advance; whereas for every `char` value `ch` that `terminal_write`
passes on, from an in-bounds cursor, the row advances exactly when the byte of
`ch` is `0x0A` or `column + 1 = 80`. -/
theorem newline_test_untruncated (s : Terminal) (c : Int)
    (hmod : c % 256 = 10) (hne : c ≠ 10)
    (hcol : s.terminal_column + 1 < VGA_WIDTH) (hrow : s.terminal_row < VGA_HEIGHT) :
    (∃ t cell, terminal_putchar s c = some t ∧
      buffer_load t.terminal_buffer (s.terminal_row * VGA_WIDTH + s.terminal_column) =
        some cell ∧
      cell % 256 = 0x0A ∧
      t.terminal_column = s.terminal_column + 1 ∧ t.terminal_row = s.terminal_row) ∧
    (∀ (u : Terminal) (ch : Int), cursor_in_bounds u → -128 ≤ ch → ch < 256 →
      ∃ v, terminal_write u [ch] 1 = some v ∧ terminal_putchar u ch = some v ∧
        ((to_uchar ch = 0x0A ∨ u.terminal_column + 1 = VGA_WIDTH) →
          v.terminal_column = 0 ∧ v.terminal_row ≠ u.terminal_row ∧
          v.terminal_row =
            (if u.terminal_row + 1 = VGA_HEIGHT then 0 else u.terminal_row + 1)) ∧
        (¬ (to_uchar ch = 0x0A ∨ u.terminal_column + 1 = VGA_WIDTH) →
          v.terminal_column = u.terminal_column + 1 ∧
          v.terminal_row = u.terminal_row)) := by
  constructor
  · have hc : s.terminal_column < VGA_WIDTH := by omega
    have hb : s.terminal_row * VGA_WIDTH + s.terminal_column < VGA_WIDTH * VGA_HEIGHT := by
      simp only [VGA_WIDTH, VGA_HEIGHT] at *; omega
    have hw : ¬ (s.terminal_column + 1 = VGA_WIDTH ∨ c = 10) := by
      intro h
      rcases h with h | h
      · omega
      · exact hne h
    refine ⟨_, vga_entry c s.terminal_color, terminal_putchar_eq s c hc hrow, ?_, ?_, ?_, ?_⟩
    · rw [buffer_load_eq _ _ hb]
      simp
    · rw [vga_entry_char]
      unfold to_uchar
      rw [hmod]
      rfl
    · simp only [if_neg hw]
    · simp only [if_neg hw]
  · intro u ch hu hlo hhi
    have hbyte : to_uchar ch = 0x0A ↔ ch = 10 := by
      unfold to_uchar
      omega
    have hstep := terminal_putchar_eq u ch hu.1 hu.2
    have hwrite : terminal_write u [ch] 1 = terminal_putchar u ch := by
      rw [terminal_write_eq_foldlM u [ch] 1 (by simp)]
      simp only [List.take_succ_cons, List.take_zero, List.foldlM_cons, List.foldlM_nil,
        bind_pure]
    refine ⟨_, hwrite.trans hstep, hstep, ?_, ?_⟩
    · intro h
      have hw : u.terminal_column + 1 = VGA_WIDTH ∨ ch = 10 := by
        rcases h with h | h
        · exact Or.inr (hbyte.mp h)
        · exact Or.inl h
      have h2 := hu.2
      simp only [if_pos hw, true_and]
      constructor
      · simp only [VGA_HEIGHT] at *
        split <;> omega
      · trivial
    · intro h
      have hw : ¬ (u.terminal_column + 1 = VGA_WIDTH ∨ ch = 10) := by
        intro h'
        apply h
        rcases h' with h' | h'
        · exact Or.inr h'
        · exact Or.inl (hbyte.mpr h')
      simp only [if_neg hw, and_self]

/-- C19, at a blank screen and the value `266`. -/
theorem newline_test_untruncated_witness :
    ((266 : Int) % 256 = 10 ∧ (266 : Int) ≠ 10 ∧ fresh.terminal_column + 1 < VGA_WIDTH ∧
      fresh.terminal_row < VGA_HEIGHT) ∧
    (∃ t cell, terminal_putchar fresh 266 = some t ∧
      buffer_load t.terminal_buffer
        (fresh.terminal_row * VGA_WIDTH + fresh.terminal_column) = some cell ∧
      cell % 256 = 0x0A ∧
      t.terminal_column = fresh.terminal_column + 1 ∧
      t.terminal_row = fresh.terminal_row) :=
  ⟨by decide,
    (newline_test_untruncated fresh 266 (by decide) (by decide) (by decide)
      (by decide)).1⟩

/-- C20: the attribute invariant.  In every state reached from
`terminal_initialize` by a sequence of calls, every cell has an attribute byte
(bits 8-15) that is the default colour `0x07` or a colour set by a
`terminal_setcolor` call of the sequence; so when the sequence has only
`terminal_putchar`, `terminal_write` and `terminal_writestring` calls, every one
of the 2000 cells has the attribute byte `0x07`. -/
theorem attribute_invariant (s0 s : Terminal) (calls : List Call)
    (h : ( terminal_initialize s0).bind (fun t => run_calls t calls) = some s) :
    ((∀ k, Call.setcolor k ∉ calls) →
      ∀ i, i < 2000 → ∃ cell, buffer_load s.terminal_buffer i = some cell ∧
        cell / 256 = 0x07 ∧ (cell >>> 8) &&& 0xFF = 0x07) ∧
    (∀ i, i < 2000 → ∃ cell, buffer_load s.terminal_buffer i = some cell ∧
      (cell / 256 = 0x07 ∨ ∃ k, Call.setcolor k ∈ calls ∧ cell / 256 = k % 256)) := by
  rw [terminal_initialize_eq, Option.some_bind] at h
  have hfresh : (fresh.terminal_color % 256 = 7 ∨
      ∃ k, Call.setcolor k ∈ calls ∧ fresh.terminal_color % 256 = k % 256) ∧
      ∀ j, (fresh.terminal_buffer j / 256 = 7 ∨
        ∃ k, Call.setcolor k ∈ calls ∧ fresh.terminal_buffer j / 256 = k % 256) :=
    ⟨Or.inl (by decide), fun _ => Or.inl (by show 1824 / 256 = 7; decide)⟩
  have hgen := run_calls_attr
    (fun a => a = 7 ∨ ∃ k, Call.setcolor k ∈ calls ∧ a = k % 256) calls fresh s
    hfresh (fun k hk => Or.inr ⟨k, hk, rfl⟩) h
  constructor
  · intro hno i hi
    refine ⟨_, buffer_load_eq _ i hi, ?_⟩
    have h7 : s.terminal_buffer ⟨i, hi⟩ / 256 = 7 := by
      rcases hgen.2 ⟨i, hi⟩ with h1 | ⟨k, hk, _⟩
      · exact h1
      · exact absurd hk (hno k)
    have h8 : ∀ x : Nat, x &&& 0xFF = x % 256 := fun x =>
      Nat.and_pow_two_sub_one_eq_mod x 8
    rw [h8, Nat.shiftRight_eq_div_pow]
    refine ⟨h7, ?_⟩
    show s.terminal_buffer ⟨i, hi⟩ / 256 % 256 = 7
    rw [h7]
  · intro i hi
    exact ⟨_, buffer_load_eq _ i hi, hgen.2 ⟨i, hi⟩⟩

/-- C20, at the state reached by `terminal_setcolor(0x1F); terminal_putchar('H')`. -/
theorem attribute_invariant_witness :
    (( terminal_initialize fresh).bind
      (fun t => run_calls t [Call.setcolor 31, Call.putchar 72]) = some after_H) ∧
    ((∀ k, Call.setcolor k ∉ [Call.setcolor 31, Call.putchar 72]) →
      ∀ i, i < 2000 → ∃ cell, buffer_load after_H.terminal_buffer i = some cell ∧
        cell / 256 = 0x07 ∧ (cell >>> 8) &&& 0xFF = 0x07) ∧
    (∀ i, i < 2000 → ∃ cell, buffer_load after_H.terminal_buffer i = some cell ∧
      (cell / 256 = 0x07 ∨
        ∃ k, Call.setcolor k ∈ [Call.setcolor 31, Call.putchar 72] ∧
          cell / 256 = k % 256)) :=
  ⟨run_after_H,
    attribute_invariant fresh after_H [Call.setcolor 31, Call.putchar 72] run_after_H⟩

end Kernel
